/-
Verification of the code-analyzer orchestration core.

This file gives a shallow embedding, in Lean 4, of the orchestration pipeline
of the code-analyzer repository (rule catalog, rule-selector algebra, engine
registration, run pipeline with result validation, and the aggregated result
model), together with theorems settling the specification claims about it.

Modelling conventions:
* TypeScript exceptions are modelled with `Except String`; a thrown `Error`
  becomes `.error msg` carrying the formatted message string.
* JavaScript `Map` objects are modelled as insertion-ordered association
  lists (`List (key × value)`); `Map.set` replaces an existing key in place
  or appends a new one.
* JavaScript numbers appearing in engine-supplied data (line/column numbers,
  `primaryLocationIndex`) are modelled as `ℚ`, which represents every finite
  double exactly; `Number.isInteger` becomes "denominator = 1" and
  `Number.MAX_VALUE` is the exact rational value of that constant.
* The filesystem consulted by `fs.existsSync` / `fs.statSync` is modelled as
  an explicit finite structure of file and directory paths, and the ambient
  working directory used by `path.resolve` is an explicit `cwd` argument.
* The message catalog (`messages.ts`) performs printf-style `%s`/`%d`
  substitution into literal templates; each template used here is embedded as
  a Lean function producing the already-substituted string.
* Event emission is modelled where a claim depends on it (the log events of
  `addEnginePlugin`); the run pipeline's progress events carry no data a
  claim mentions and are not modelled.  Timestamps (the injected clock) are
  not modelled.
-/
import Mathlib

set_option maxHeartbeats 1000000

/-! ## String utilities

The source lowercases selector strings with `String.prototype.toLowerCase`
and splits them with `String.prototype.split` on single-character
separators.  We model lowercasing with `Char.toLower` (which, like the
source's data, only needs to act on basic-latin letters) mapped over the
character list, and splitting with an explicit recursion mirroring the
JavaScript semantics (`"".split(c) == [""]`, separators at the ends produce
empty fragments). -/

/-- Lowercase every character; models `String.prototype.toLowerCase` on the
basic-latin range. -/
def lowerStr (s : String) : String := ⟨s.data.map Char.toLower⟩

/-- Split a character list at every occurrence of `c`; models
`String.prototype.split` with a one-character separator. -/
def splitChar (c : Char) : List Char → List (List Char)
  | [] => [[]]
  | x :: xs =>
    if x = c then [] :: splitChar c xs
    else
      match splitChar c xs with
      | [] => [[x]]
      | y :: ys => (x :: y) :: ys

/-- String-level wrapper for `splitChar`. -/
def splitOnChar (c : Char) (s : String) : List String :=
  (splitChar c s.data).map String.mk

/-- Count the occurrences of a character; used to state the "more than one
`#`" condition of path start points directly on the input string. -/
def countChar (c : Char) (s : String) : Nat := s.data.count c

theorem splitChar_ne_nil (c : Char) (l : List Char) : splitChar c l ≠ [] := by
  induction l with
  | nil => simp [splitChar]
  | cons x xs ih =>
    simp only [splitChar]
    split
    · simp
    · split
      · simp
      · simp

theorem splitChar_length (c : Char) (l : List Char) :
    (splitChar c l).length = l.count c + 1 := by
  induction l with
  | nil => simp [splitChar]
  | cons x xs ih =>
    simp only [splitChar]
    split
    · rename_i hx
      simp [List.count_cons, hx, ih]
    · rename_i hx
      cases h : splitChar c xs with
      | nil => exact absurd h (splitChar_ne_nil c xs)
      | cons y ys =>
        rw [h] at ih
        simp only [List.length_cons] at ih
        simp [List.count_cons, hx, ih]

theorem char_toNat_ofNat (n : Nat) (h : n.isValidChar) : (Char.ofNat n).toNat = n := by
  unfold Char.ofNat
  rw [dif_pos h]
  unfold Char.ofNatAux Char.toNat
  simp [UInt32.ofNat', UInt32.toNat, BitVec.toNat_ofNatLt]

/-- `Char.toLower` maps no character other than `:` to `:`; this is what lets
lowercasing commute with splitting on `:`. -/
theorem toLower_eq_colon {c : Char} : c.toLower = ':' ↔ c = ':' := by
  constructor
  · intro h
    unfold Char.toLower at h
    simp only at h
    split at h
    · exfalso
      rename_i hc
      have h2 := congrArg Char.toNat h
      rw [char_toNat_ofNat] at h2
      · have : (':' : Char).toNat = 58 := by decide
        omega
      · exact Or.inl (by omega)
    · exact h
  · intro h; subst h; decide

theorem splitChar_map_toLower (l : List Char) :
    splitChar ':' (l.map Char.toLower) = (splitChar ':' l).map (List.map Char.toLower) := by
  induction l with
  | nil => simp [splitChar]
  | cons x xs ih =>
    by_cases hx : x = ':'
    · subst hx
      simp only [List.map_cons, splitChar, if_pos (toLower_eq_colon.mpr rfl), if_pos rfl, ih]
      simp
    · have hlx : x.toLower ≠ ':' := fun h => hx (toLower_eq_colon.mp h)
      simp only [List.map_cons, splitChar, if_neg hlx, if_neg hx, ih]
      cases h : splitChar ':' xs with
      | nil => exact absurd h (splitChar_ne_nil ':' xs)
      | cons y ys => simp

theorem splitOnChar_lowerStr (s : String) :
    splitOnChar ':' (lowerStr s) = (splitOnChar ':' s).map lowerStr := by
  simp only [splitOnChar, lowerStr, splitChar_map_toLower, List.map_map]
  rfl

/-! ## Rule data model (rules.ts) -/

/-- `SeverityLevel` enum of rules.ts: `Critical = 1 .. Info = 5`. -/
inductive SeverityLevel where
  | Critical
  | High
  | Moderate
  | Low
  | Info
deriving DecidableEq, Repr

/-- The numeric value of the severity enum member. -/
def SeverityLevel.toNat : SeverityLevel → Nat
  | .Critical => 1
  | .High => 2
  | .Moderate => 3
  | .Low => 4
  | .Info => 5

/-- The reverse enum mapping `SeverityLevel[sevNumber]` used by
`matchesRuleSelector`. -/
def SeverityLevel.name : SeverityLevel → String
  | .Critical => "Critical"
  | .High => "High"
  | .Moderate => "Moderate"
  | .Low => "Low"
  | .Info => "Info"

/-- `RuleType` enum of rules.ts. -/
inductive RuleType where
  | Standard
  | DataFlow
  | Flow
  | UnexpectedError
deriving DecidableEq, Repr

/-- `engApi.RuleDescription` (engine-api rules.ts). -/
structure RuleDescription where
  name : String
  severityLevel : SeverityLevel
  type : RuleType
  tags : List String
  description : String
  resourceUrls : List String
deriving DecidableEq, Repr

/-- The two `Rule` implementations of rules.ts: `RuleImpl` (an ingested rule
description of one engine) and `UnexpectedEngineErrorRule` (the synthetic
Critical rule materialized when an engine fails). -/
inductive Rule where
  | impl (engineName : String) (ruleDesc : RuleDescription)
  | unexpectedEngineError (engineName : String)
deriving DecidableEq, Repr

def Rule.getName : Rule → String
  | .impl _ ruleDesc => ruleDesc.name
  | .unexpectedEngineError _ => "UnexpectedEngineError"

def Rule.getEngineName : Rule → String
  | .impl engineName _ => engineName
  | .unexpectedEngineError engineName => engineName

def Rule.getSeverityLevel : Rule → SeverityLevel
  | .impl _ ruleDesc => ruleDesc.severityLevel
  | .unexpectedEngineError _ => .Critical

def Rule.getType : Rule → RuleType
  | .impl _ ruleDesc => ruleDesc.type
  | .unexpectedEngineError _ => .UnexpectedError

def Rule.getTags : Rule → List String
  | .impl _ ruleDesc => ruleDesc.tags
  | .unexpectedEngineError _ => []

def Rule.getResourceUrls : Rule → List String
  | .impl _ ruleDesc => ruleDesc.resourceUrls
  | .unexpectedEngineError _ => []

/-- `RuleImpl.matchesRuleSelector` (rules.ts): lowercase the selector, split
it on `:` and require every part to occur among the rule's lowercased
selectable tokens `["all", engineName, ruleName, severityName,
severityNumber]` plus its tags.  (The source defines this on `RuleImpl`; it
only reads the getters, which are total on `Rule`.) -/
def Rule.matchesRuleSelector (rule : Rule) (ruleSelector : String) : Bool :=
  let sevNumber : Nat := rule.getSeverityLevel.toNat
  let sevName : String := rule.getSeverityLevel.name
  let selectables : List String :=
    ["all", lowerStr rule.getEngineName, lowerStr rule.getName, lowerStr sevName,
      toString sevNumber] ++ rule.getTags.map lowerStr
  (splitOnChar ':' (lowerStr ruleSelector)).all fun selectorPart =>
    selectables.any fun s => s == selectorPart

/-! ### The spec's reading of selector matching

The specification describes matching as: split the selector on `:` and
require every colon-delimited part to be case-insensitively equal to a
member of the rule's selectable-token set. -/

/-- Case-insensitive string equality, as the spec uses the notion. -/
def eqIgnoreCase (a b : String) : Bool := lowerStr a == lowerStr b

/-- The rule's selectable-token set as the spec lists it:
`{"all", engine name, rule name, severity name, severity number, tags...}`. -/
def selectableTokens (rule : Rule) : List String :=
  ["all", rule.getEngineName, rule.getName, rule.getSeverityLevel.name,
    toString rule.getSeverityLevel.toNat] ++ rule.getTags

/-- Modelled from the spec: a selector matches a rule iff every
colon-delimited part is case-insensitively equal to some selectable token. -/
def selectorMatchesSpec (ruleSelector : String) (rule : Rule) : Bool :=
  (splitOnChar ':' ruleSelector).all fun part =>
    (selectableTokens rule).any fun tok => eqIgnoreCase part tok

theorem lowerStr_digit (s : SeverityLevel) :
    lowerStr (toString s.toNat) = toString s.toNat := by
  cases s <;> decide

theorem lowerStr_all_lit : lowerStr "all" = "all" := by decide

/-- The lowercased selectable list of `matchesRuleSelector` is the lowercase
image of the spec's selectable-token set. -/
theorem selectables_eq_map_lower (rule : Rule) :
    (["all", lowerStr rule.getEngineName, lowerStr rule.getName,
        lowerStr rule.getSeverityLevel.name, toString rule.getSeverityLevel.toNat] ++
      rule.getTags.map lowerStr) = (selectableTokens rule).map lowerStr := by
  simp [selectableTokens, lowerStr_digit, lowerStr_all_lit]

/-- The source's `matchesRuleSelector` computes exactly the spec's
case-insensitive every-part-is-a-token predicate. -/
theorem matchesRuleSelector_eq_spec (rule : Rule) (ruleSelector : String) :
    rule.matchesRuleSelector ruleSelector = selectorMatchesSpec ruleSelector rule := by
  unfold Rule.matchesRuleSelector selectorMatchesSpec
  rw [splitOnChar_lowerStr]
  simp only [List.all_map]
  congr 1
  funext part
  rw [Function.comp_apply, selectables_eq_map_lower, List.any_map]
  congr 1
  funext tok
  simp only [Function.comp_apply, eqIgnoreCase]
  exact Bool.beq_comm

/-! ## Rule selection (rules.ts `RuleSelectionImpl`) -/

/-- Lookup in an insertion-ordered association list (a JavaScript `Map`). -/
def assocLookup {β : Type} : List (String × β) → String → Option β
  | [], _ => none
  | (k, v) :: rest, key => if k = key then some v else assocLookup rest key

/-- Append `rule` to the list of its engine, creating the engine's entry at
the end of the map when absent; models `RuleSelectionImpl.addRule`. -/
def addToRuleMap : List (String × List Rule) → String → Rule → List (String × List Rule)
  | [], engineName, rule => [(engineName, [rule])]
  | (k, rules) :: rest, engineName, rule =>
    if k = engineName then (k, rules ++ [rule]) :: rest
    else (k, rules) :: addToRuleMap rest engineName rule

/-- `RuleSelectionImpl` (rules.ts): engine name → ordered rule list. -/
structure RuleSelectionImpl where
  ruleMap : List (String × List Rule) := []
deriving DecidableEq, Repr

def RuleSelectionImpl.addRule (sel : RuleSelectionImpl) (rule : Rule) : RuleSelectionImpl :=
  { ruleMap := addToRuleMap sel.ruleMap rule.getEngineName rule }

def RuleSelectionImpl.getRulesFor (sel : RuleSelectionImpl) (engineName : String) : List Rule :=
  (assocLookup sel.ruleMap engineName).getD []

def RuleSelectionImpl.getEngineNames (sel : RuleSelectionImpl) : List String :=
  sel.ruleMap.map Prod.fst

def RuleSelectionImpl.getCount (sel : RuleSelectionImpl) : Nat :=
  sel.ruleMap.foldl (fun count entry => count + entry.2.length) 0

/-- Message `RuleDoesNotExistInSelection` of messages.ts. -/
def msgRuleDoesNotExistInSelection (ruleName engineName : String) : String :=
  "No rule with name \"" ++ ruleName ++ "\" and engine \"" ++ engineName ++
    "\" exists among the selected rules."

/-- `RuleSelectionImpl.getRule`: first rule of the engine with the given
name; throws when absent. -/
def RuleSelectionImpl.getRule (sel : RuleSelectionImpl) (engineName ruleName : String) :
    Except String Rule :=
  match (sel.getRulesFor engineName).find? (fun rule => rule.getName == ruleName) with
  | some rule => .ok rule
  | none => .error (msgRuleDoesNotExistInSelection ruleName engineName)

/-- `CodeAnalyzer.selectRules` (index.ts): empty selector list defaults to
`["Recommended"]`; a rule is added when some selector matches it, in catalog
order. -/
def CodeAnalyzer.selectRules (allRules : List Rule) (selectors : List String) :
    RuleSelectionImpl :=
  let selectors := if selectors.length > 0 then selectors else ["Recommended"]
  allRules.foldl
    (fun ruleSelection rule =>
      if selectors.any rule.matchesRuleSelector then ruleSelection.addRule rule
      else ruleSelection)
    {}

theorem assocLookup_addToRuleMap (m : List (String × List Rule)) (e : String) (r : Rule)
    (e2 : String) :
    assocLookup (addToRuleMap m e r) e2 =
      if e = e2 then some ((assocLookup m e).getD [] ++ [r]) else assocLookup m e2 := by
  induction m with
  | nil =>
    simp only [addToRuleMap, assocLookup]
    split <;> rfl
  | cons hd rest ih =>
    obtain ⟨k, rules⟩ := hd
    simp only [addToRuleMap]
    by_cases hk : k = e
    · subst hk
      simp only [if_pos rfl, assocLookup]
      by_cases hk2 : k = e2 <;> simp [hk2]
    · rw [if_neg hk]
      simp only [assocLookup, ih]
      by_cases hk2 : k = e2
      · subst hk2
        have hne : e ≠ k := fun h => hk h.symm
        simp [hne]
      · simp [hk2, hk]

theorem getRulesFor_addRule (sel : RuleSelectionImpl) (r : Rule) (e : String) :
    (sel.addRule r).getRulesFor e =
      if r.getEngineName = e then sel.getRulesFor e ++ [r] else sel.getRulesFor e := by
  simp only [RuleSelectionImpl.addRule, RuleSelectionImpl.getRulesFor,
    assocLookup_addToRuleMap]
  split
  · rename_i h
    rw [h]
    simp
  · simp

theorem selectRules_fold (rules : List Rule) (sels : List String) (acc : RuleSelectionImpl)
    (e : String) :
    (rules.foldl
        (fun ruleSelection rule =>
          if sels.any rule.matchesRuleSelector then ruleSelection.addRule rule
          else ruleSelection)
        acc).getRulesFor e =
      acc.getRulesFor e ++
        rules.filter (fun r => r.getEngineName == e && sels.any r.matchesRuleSelector) := by
  induction rules generalizing acc with
  | nil => simp
  | cons r rest ih =>
    simp only [List.foldl_cons, List.filter_cons, ih]
    by_cases hm : sels.any r.matchesRuleSelector
    · rw [if_pos hm]
      by_cases he : r.getEngineName = e
      · have : (r.getEngineName == e && sels.any r.matchesRuleSelector) = true := by
          simp [he, hm]
        rw [this, getRulesFor_addRule, if_pos he]
        simp
      · have : (r.getEngineName == e && sels.any r.matchesRuleSelector) = false := by
          simp [he]
        rw [this, getRulesFor_addRule, if_neg he]
        simp
    · rw [if_neg hm]
      have : (r.getEngineName == e && sels.any r.matchesRuleSelector) = false := by
        simp only [Bool.and_eq_false_iff]
        right
        exact Bool.not_eq_true _ ▸ hm
      rw [this]
      simp

/-! ## Claims about the rule-selector algebra (C3, C9) -/

/-- A Recommended-tagged catalog entry used by concrete instances below. -/
def sampleRecommendedRule : Rule :=
  .impl "stubEngine1"
    { name := "stub1RuleA", severityLevel := .Low, type := .Standard,
      tags := ["Recommended", "CodeStyle"], description := "desc A", resourceUrls := [] }

/-- A Security-tagged catalog entry used by concrete instances below. -/
def sampleSecurityRule : Rule :=
  .impl "stubEngine1"
    { name := "stub1RuleB", severityLevel := .High, type := .Standard,
      tags := ["Security"], description := "desc B", resourceUrls := [] }

/-- C3 (counterexample): with the empty selector list, `selectRules` defaults
to `["Recommended"]` and returns a Recommended-tagged rule even though no
supplied selector string matches it; so "included iff at least one selector
string matches", read over every list of selector strings, fails at the
empty list. -/
theorem selectRules_empty_includes_unmatched_rule :
    (CodeAnalyzer.selectRules [sampleRecommendedRule] []).getRulesFor "stubEngine1" =
        [sampleRecommendedRule] ∧
      (([] : List String).any fun s => selectorMatchesSpec s sampleRecommendedRule) = false :=
  ⟨rfl, rfl⟩

/-- C3 (amended: restricted to non-empty selector lists; the empty list
instead behaves as `["Recommended"]`, see C9): a rule is in the selection for
its engine iff some selector string, split on `:`, has every part
case-insensitively equal to a member of the rule's selectable-token set; each
matching rule is added exactly once, in catalog order, however many selector
strings match it. -/
theorem selectRules_selection_iff_spec_match (allRules : List Rule)
    (selectors : List String) (engineName : String) (hsel : selectors ≠ []) :
    (CodeAnalyzer.selectRules allRules selectors).getRulesFor engineName =
      allRules.filter
        (fun r => r.getEngineName == engineName &&
          selectors.any fun s => selectorMatchesSpec s r) := by
  simp only [CodeAnalyzer.selectRules]
  have hlen : selectors.length > 0 := List.length_pos.mpr hsel
  rw [if_pos hlen, selectRules_fold]
  have hempty : RuleSelectionImpl.getRulesFor {} engineName = [] := rfl
  rw [hempty, List.nil_append]
  have hf : (fun r : Rule => r.getEngineName == engineName && selectors.any r.matchesRuleSelector)
      = (fun r : Rule => r.getEngineName == engineName &&
          selectors.any fun s => selectorMatchesSpec s r) := by
    funext r
    have hm : r.matchesRuleSelector = fun s => selectorMatchesSpec s r := by
      funext s
      exact matchesRuleSelector_eq_spec r s
    rw [hm]
  rw [hf]

/-- C3 witness: the amended theorem applied to a concrete two-rule catalog
and the concrete selector list `["security", "codestyle:low"]`. -/
theorem selectRules_selection_iff_spec_match_witness :
    (CodeAnalyzer.selectRules [sampleRecommendedRule, sampleSecurityRule]
        ["security", "codestyle:low"]).getRulesFor "stubEngine1" =
      [sampleRecommendedRule, sampleSecurityRule].filter
        (fun r => r.getEngineName == "stubEngine1" &&
          ["security", "codestyle:low"].any fun s => selectorMatchesSpec s r) :=
  selectRules_selection_iff_spec_match [sampleRecommendedRule, sampleSecurityRule]
    ["security", "codestyle:low"] "stubEngine1" (by decide)

/-- C9: `selectRules` with no selector strings returns the very same
selection as `selectRules` with the single selector `"Recommended"`. -/
theorem selectRules_empty_eq_recommended (allRules : List Rule) :
    CodeAnalyzer.selectRules allRules [] =
      CodeAnalyzer.selectRules allRules ["Recommended"] := rfl

/-! ## Workspace path normalization (index.ts `removeRedundantPaths`, C5) -/

/-- `path.sep` on the platform the analyzer targets (POSIX). -/
def pathSep : String := "/"

/-- `String.prototype.startsWith`, on the character lists. -/
def strStartsWith (s start : String) : Bool := start.data.isPrefixOf s.data

/-- Stable insertion step for sorting by string length ascending. -/
def insertByLength (s : String) : List String → List String
  | [] => [s]
  | t :: ts => if t.length < s.length then t :: insertByLength s ts else s :: t :: ts

/-- Sort by length ascending, stably; models
`paths.sort((a, b) => a.length - b.length)` (ECMA-262 requires `sort` to be
stable). -/
def sortByLength (l : List String) : List String := l.foldr insertByLength []

/-- Stable insertion step for the default lexicographic sort. -/
def insertLex (s : String) : List String → List String
  | [] => [s]
  | t :: ts => if t < s then t :: insertLex s ts else s :: t :: ts

/-- The default `Array.prototype.sort()` comparison on strings (code-unit
lexicographic order). -/
def sortLex (l : List String) : List String := l.foldr insertLex []

/-- `removeRedundantPaths` (index.ts): sort by length ascending, drop every
path equal to or strictly underneath an already-kept path, then sort the
survivors alphabetically. -/
def removeRedundantPaths (absolutePaths : List String) : List String :=
  let pathsSortedByLength := sortByLength absolutePaths
  let filteredPaths := pathsSortedByLength.foldl
    (fun filteredPaths currentPath =>
      let isAlreadyContained := filteredPaths.any fun existingPath =>
        strStartsWith currentPath (existingPath ++ pathSep) || existingPath == currentPath
      if isAlreadyContained then filteredPaths else filteredPaths ++ [currentPath])
    []
  sortLex filteredPaths

/-- Modelled from the spec: keep a path only if no previously-kept path
equals it or is its exact parent-directory prefix. -/
def specKeepUncovered (kept : List String) : List String → List String
  | [] => []
  | p :: rest =>
    if kept.any (fun q => q == p || strStartsWith p (q ++ pathSep)) then
      specKeepUncovered kept rest
    else p :: specKeepUncovered (kept ++ [p]) rest

/-- Modelled from the spec: sort by length ascending, keep uncovered paths,
sort survivors lexicographically. -/
def normalizeWorkspacePathsSpec (paths : List String) : List String :=
  sortLex (specKeepUncovered [] (sortByLength paths))

theorem keepUncovered_fold (l : List String) (acc : List String) :
    l.foldl
        (fun filteredPaths currentPath =>
          if filteredPaths.any (fun existingPath =>
              strStartsWith currentPath (existingPath ++ pathSep) ||
                existingPath == currentPath) then
            filteredPaths
          else filteredPaths ++ [currentPath])
        acc =
      acc ++ specKeepUncovered acc l := by
  induction l generalizing acc with
  | nil => simp [specKeepUncovered]
  | cons p rest ih =>
    simp only [List.foldl_cons, specKeepUncovered]
    have hcond : (acc.any fun existingPath =>
          strStartsWith p (existingPath ++ pathSep) || existingPath == p) =
        (acc.any fun q => q == p || strStartsWith p (q ++ pathSep)) := by
      induction acc with
      | nil => rfl
      | cons q qs ihq =>
        rw [List.any_cons, List.any_cons, ihq,
          Bool.or_comm (strStartsWith p (q ++ pathSep)) (q == p)]
    rw [hcond]
    by_cases hc : (acc.any fun q => q == p || strStartsWith p (q ++ pathSep)) = true
    · rw [if_pos hc, if_pos hc, ih]
    · rw [if_neg hc, if_neg hc, ih]
      simp

/-- C5: the source's `removeRedundantPaths` computes exactly the spec's
normalization (length-ascending sweep keeping only uncovered paths, then
lexicographic sort), and on the spec's example `["a/b", "a", "a/b/c.txt"]`
the result is exactly `["a"]`. -/
theorem removeRedundantPaths_spec :
    (∀ paths, removeRedundantPaths paths = normalizeWorkspacePathsSpec paths) ∧
      removeRedundantPaths ["a/b", "a", "a/b/c.txt"] = ["a"] := by
  constructor
  · intro paths
    simp only [removeRedundantPaths, normalizeWorkspacePathsSpec]
    rw [keepUncovered_fold]
    rfl
  · rfl

/-! ## Filesystem model and path start points (index.ts, C6) -/

/-- The filesystem consulted through `fs.existsSync` / `fs.statSync`,
as a finite set of file paths and directory paths. -/
structure FileSystem where
  files : List String
  dirs : List String
deriving DecidableEq, Repr

def FileSystem.existsSync (fsys : FileSystem) (p : String) : Bool :=
  fsys.files.contains p || fsys.dirs.contains p

def FileSystem.isDirectory (fsys : FileSystem) (p : String) : Bool :=
  fsys.dirs.contains p

def FileSystem.isFile (fsys : FileSystem) (p : String) : Bool :=
  fsys.files.contains p

/-- `toAbsolutePath` (utils.ts): slashes are normalized to the separator and
the result resolved against the working directory.  `path.resolve` is
modelled for already-normalized inputs: an absolute path (leading `/`) is
returned unchanged, a relative one is appended to the working directory; the
dot-segment cleanup `path.resolve` also performs is not modelled, and the
claims only evaluate this on normalized paths. -/
def toAbsolutePath (cwd : String) (fileOrFolder : String) : String :=
  let replaced : String := ⟨fileOrFolder.data.map fun c => if c = '\\' then '/' else c⟩
  if strStartsWith replaced pathSep then replaced else cwd ++ pathSep ++ replaced

/-- Message `FileOrFolderDoesNotExist` of messages.ts. -/
def msgFileOrFolderDoesNotExist (f : String) : String :=
  "The file or folder \"" ++ f ++ "\" does not exist."

/-- Message `AtLeastOneFileOrFolderMustBeIncluded` of messages.ts. -/
def msgAtLeastOneFileOrFolderMustBeIncluded : String :=
  "At least one file or folder must be included."

/-- Message `PathStartPointFileDoesNotExist` of messages.ts. -/
def msgPathStartPointFileDoesNotExist (v absFile : String) : String :=
  "The value \"" ++ v ++ "\" is not a valid path starting point since the file \"" ++
    absFile ++ "\" does not exist."

/-- Message `PathStartPointWithMethodMustNotBeFolder` of messages.ts. -/
def msgPathStartPointWithMethodMustNotBeFolder (v absFile : String) : String :=
  "The value \"" ++ v ++ "\" is not a valid path starting point since \"" ++ absFile ++
    "\" is a folder instead of a file."

/-- Message `InvalidPathStartPoint` of messages.ts. -/
def msgInvalidPathStartPoint (v : String) : String :=
  "The value \"" ++ v ++ "\" is not a valid path starting point. " ++
    "Expected value to be of the format \"<fileOrFolder>\", \"<file>#<methodName>\", " ++
    "or \"<file>#<methodName1>;<methodName2>;...\"."

/-- Message `PathStartPointMustBeInsideWorkspace` of messages.ts (with the
source's own wording, including its typo). -/
def msgPathStartPointMustBeInsideWorkspace (f ws : String) : String :=
  "The specified path starting point of \"" ++ f ++
    "\" does not that exists underneath any of the specified paths: " ++ ws

/-- `JSON.stringify` of a string array, for strings without characters that
JSON escapes. -/
def jsonStringifyStringList (l : List String) : String :=
  "[" ++ String.intercalate "," (l.map fun s => "\"" ++ s ++ "\"") ++ "]"

/-- `validateFileOrFolder` (index.ts).  Note the source tests existence on
the path as given, not on the absolute path it returns. -/
def validateFileOrFolder (fsys : FileSystem) (cwd : String) (fileOrFolder : String) :
    Except String String :=
  let absFileOrFolder := toAbsolutePath cwd fileOrFolder
  if !(fsys.existsSync fileOrFolder) then .error (msgFileOrFolderDoesNotExist absFileOrFolder)
  else .ok absFileOrFolder

/-- `validatePathStartPointFile` (index.ts). -/
def validatePathStartPointFile (fsys : FileSystem) (cwd : String)
    (file pathStartPointStr : String) : Except String String :=
  let absFile := toAbsolutePath cwd file
  if !(fsys.existsSync absFile) then
    .error (msgPathStartPointFileDoesNotExist pathStartPointStr absFile)
  else if fsys.isDirectory absFile then
    .error (msgPathStartPointWithMethodMustNotBeFolder pathStartPointStr absFile)
  else .ok absFile

/-- `engApi.PathPoint`. -/
structure PathPoint where
  file : String
  methodName : Option String := none
deriving DecidableEq, Repr

/-- Models `methodNames.replace(/\s+;*$/, '')`: the regex matches only a
nonempty run of whitespace followed by all of the trailing semicolons, so
trailing semicolons NOT preceded by whitespace are left in place.  (`\s` is
modelled on the ASCII whitespace characters.) -/
def trimTrailingWsSemis (s : String) : String :=
  let rev := s.data.reverse
  let afterSemis := rev.dropWhile fun c => c == ';'
  let afterWs := afterSemis.dropWhile fun c => c.isWhitespace
  if afterWs.length == afterSemis.length then s
  else ⟨afterWs.reverse⟩

/-- The regex `^[A-Za-z][A-Za-z0-9_]*$` of `extractEnginePathStartPoints`. -/
def isValidMethodName (s : String) : Bool :=
  match s.data with
  | [] => false
  | c :: cs => c.isAlpha && cs.all fun c2 => c2.isAlphanum || c2 == '_'

/-- `extractEnginePathStartPoints` (index.ts). -/
def extractEnginePathStartPoints (fsys : FileSystem) (cwd : String)
    (pathStartPointStr : String) : Except String (List PathPoint) :=
  let parts := splitOnChar '#' pathStartPointStr
  if parts.length == 1 then
    (validateFileOrFolder fsys cwd pathStartPointStr).map fun f => [{ file := f }]
  else if parts.length > 2 then
    .error (msgInvalidPathStartPoint pathStartPointStr)
  else do
    let pathStartPointFile ←
      validatePathStartPointFile fsys cwd (parts.headD "") pathStartPointStr
    let methodNames := trimTrailingWsSemis (parts.getD 1 "")
    (splitOnChar ';' methodNames).mapM fun methodName =>
      if !(isValidMethodName methodName) then
        .error (msgInvalidPathStartPoint pathStartPointStr)
      else .ok ({ file := pathStartPointFile, methodName := some methodName } : PathPoint)

theorem splitChar_no_sep (c : Char) (l : List Char) (h : l.count c = 0) :
    splitChar c l = [l] := by
  induction l with
  | nil => rfl
  | cons x xs ih =>
    rw [List.count_cons] at h
    have hx : ¬x = c := by
      intro hxc
      simp [hxc] at h
    have hxs : xs.count c = 0 := by
      by_cases hbe : x = c
      · exact absurd hbe hx
      · simpa [hbe] using h
    simp only [splitChar, if_neg hx, ih hxs]

theorem splitChar_append_sep (c : Char) (l1 l2 : List Char) (h1 : l1.count c = 0) :
    splitChar c (l1 ++ c :: l2) = l1 :: splitChar c l2 := by
  induction l1 with
  | nil => simp [splitChar]
  | cons x xs ih =>
    rw [List.count_cons] at h1
    have hx : ¬x = c := by
      intro hxc
      simp [hxc] at h1
    have hxs : xs.count c = 0 := by
      simpa [hx] using h1
    simp only [List.cons_append, splitChar, if_neg hx, List.append_eq, ih hxs]

theorem splitOnChar_hash_append (fileP methodP : String)
    (h1 : countChar '#' fileP = 0) (h2 : countChar '#' methodP = 0) :
    splitOnChar '#' (fileP ++ "#" ++ methodP) = [fileP, methodP] := by
  have hdata : (fileP ++ "#" ++ methodP).data = fileP.data ++ '#' :: methodP.data := by
    simp [String.data_append]
  simp only [splitOnChar, hdata, splitChar_append_sep '#' fileP.data _ h1,
    splitChar_no_sep '#' methodP.data h2]
  rfl

theorem mapM_methodNames (e : String) (f : String → PathPoint) (l : List String) :
    (l.mapM fun m =>
        if !(isValidMethodName m) then (.error e : Except String PathPoint)
        else .ok (f m)) =
      if l.all isValidMethodName then .ok (l.map f) else .error e := by
  induction l with
  | nil => rfl
  | cons m rest ih =>
    rw [List.mapM_cons, ih]
    cases hm : isValidMethodName m <;> cases hrest : rest.all isValidMethodName <;>
      simp only [List.all_cons, hm, hrest] <;> rfl

theorem extract_two_hash_parts (fsys : FileSystem) (cwd : String)
    (fileP methodP absFile : String)
    (h1 : countChar '#' fileP = 0) (h2 : countChar '#' methodP = 0)
    (hv : validatePathStartPointFile fsys cwd fileP (fileP ++ "#" ++ methodP) = .ok absFile) :
    extractEnginePathStartPoints fsys cwd (fileP ++ "#" ++ methodP) =
      (splitOnChar ';' (trimTrailingWsSemis methodP)).mapM fun methodName =>
        if !(isValidMethodName methodName) then
          .error (msgInvalidPathStartPoint (fileP ++ "#" ++ methodP))
        else .ok ({ file := absFile, methodName := some methodName } : PathPoint) := by
  simp only [extractEnginePathStartPoints, splitOnChar_hash_append fileP methodP h1 h2,
    List.headD_cons, List.getD_cons_succ, List.getD_cons_zero]
  rw [hv]
  rfl

/-- A one-file filesystem used by the concrete path-start-point instances. -/
def sampleFS : FileSystem := { files := ["/f"], dirs := ["/"] }

/-- C6 (counterexample): for `"/f#m1;"` — a `#`-qualified start point whose
method part ends in a semicolon NOT preceded by whitespace — the regex
`/\s+;*$/` does not match, nothing is trimmed, the split on `;` produces an
empty method name, and the call raises the format error instead of producing
the start-point record the claim's "trailing semicolons are trimmed"
promises. -/
theorem extractEnginePathStartPoints_trailing_semicolon_counterexample :
    extractEnginePathStartPoints sampleFS "/" "/f#m1;" =
        .error (msgInvalidPathStartPoint "/f#m1;") ∧
      extractEnginePathStartPoints sampleFS "/" "/f#m1;" ≠
        .ok [{ file := "/f", methodName := some "m1" }] := by
  constructor
  · rfl
  · intro h
    have h2 : Except.error (α := List PathPoint) (msgInvalidPathStartPoint "/f#m1;") =
        .ok [({ file := "/f", methodName := some "m1" } : PathPoint)] :=
      (show extractEnginePathStartPoints sampleFS "/" "/f#m1;" =
          .error (msgInvalidPathStartPoint "/f#m1;") from rfl) ▸ h
    exact Except.noConfusion h2

/-- C6 (amended): a string with more than one `#` raises the format error;
for a `#`-qualified string whose file part validates, a trailing run of
whitespace together with the semicolons following it is trimmed from the
method-name part (trailing semicolons not preceded by whitespace are NOT
trimmed), the remainder is split on `;`, and then: if every resulting method
name matches `^[A-Za-z][A-Za-z0-9_]*$` each name yields a separate
start-point record sharing the same file, and otherwise the format error
naming the offending input is raised. -/
theorem extractEnginePathStartPoints_amended :
    (∀ (fsys : FileSystem) (cwd s : String), 2 ≤ countChar '#' s →
        extractEnginePathStartPoints fsys cwd s = .error (msgInvalidPathStartPoint s)) ∧
      (∀ (fsys : FileSystem) (cwd fileP methodP absFile : String),
        countChar '#' fileP = 0 → countChar '#' methodP = 0 →
        validatePathStartPointFile fsys cwd fileP (fileP ++ "#" ++ methodP) = .ok absFile →
        ((splitOnChar ';' (trimTrailingWsSemis methodP)).all isValidMethodName = true →
            extractEnginePathStartPoints fsys cwd (fileP ++ "#" ++ methodP) =
              .ok ((splitOnChar ';' (trimTrailingWsSemis methodP)).map
                fun m => { file := absFile, methodName := some m })) ∧
          ((splitOnChar ';' (trimTrailingWsSemis methodP)).all isValidMethodName = false →
            extractEnginePathStartPoints fsys cwd (fileP ++ "#" ++ methodP) =
              .error (msgInvalidPathStartPoint (fileP ++ "#" ++ methodP)))) := by
  constructor
  · intro fsys cwd s hcount
    have hlen : (splitOnChar '#' s).length = countChar '#' s + 1 := by
      simp [splitOnChar, splitChar_length, countChar]
    simp only [extractEnginePathStartPoints]
    rw [hlen]
    have hne : (countChar '#' s + 1 == 1) = false := by
      simp only [beq_eq_false_iff_ne, ne_eq]
      omega
    rw [hne]
    simp only [Bool.false_eq_true, if_false]
    rw [if_pos (show countChar '#' s + 1 > 2 by omega)]
  · intro fsys cwd fileP methodP absFile h1 h2 hv
    have hx := extract_two_hash_parts fsys cwd fileP methodP absFile h1 h2 hv
    rw [mapM_methodNames] at hx
    constructor
    · intro hall
      rw [hx, if_pos hall]
    · intro hall
      rw [hx, if_neg (by simp [hall])]

/-- C6 witness: the amended theorem applied at three concrete inputs — a
double-`#` string, a method part `"m1 ;"` whose whitespace-plus-semicolon
tail is trimmed, and an invalid method name `"9x"`. -/
theorem extractEnginePathStartPoints_amended_witness :
    extractEnginePathStartPoints sampleFS "/" "/f#a#b" =
        .error (msgInvalidPathStartPoint "/f#a#b") ∧
      extractEnginePathStartPoints sampleFS "/" ("/f" ++ "#" ++ "m1 ;") =
        .ok [{ file := "/f", methodName := some "m1" }] ∧
      extractEnginePathStartPoints sampleFS "/" ("/f" ++ "#" ++ "9x") =
        .error (msgInvalidPathStartPoint ("/f" ++ "#" ++ "9x")) :=
  ⟨extractEnginePathStartPoints_amended.1 sampleFS "/" "/f#a#b" (by decide),
    (extractEnginePathStartPoints_amended.2 sampleFS "/" "/f" "m1 ;" "/f"
      (by decide) (by decide) rfl).1 (by decide),
    (extractEnginePathStartPoints_amended.2 sampleFS "/" "/f" "9x" "/f"
      (by decide) (by decide) rfl).2 (by decide)⟩

/-! ## Engine-api result types (engine-api results.ts)

Engine-supplied numbers are JavaScript doubles; they are modelled as `ℚ`,
which represents every finite double exactly, so "is an integer" and the
comparisons below have their JavaScript meaning. -/

/-- `engApi.CodeLocation`. -/
structure ApiCodeLocation where
  file : String
  startLine : ℚ
  startColumn : ℚ
  endLine : Option ℚ := none
  endColumn : Option ℚ := none
deriving DecidableEq, Repr

/-- `engApi.Violation`. -/
structure ApiViolation where
  ruleName : String
  message : String
  codeLocations : List ApiCodeLocation
  primaryLocationIndex : ℚ
  resourceUrls : Option (List String) := none
deriving DecidableEq, Repr

/-- `engApi.EngineRunResults`. -/
structure ApiEngineRunResults where
  violations : List ApiViolation
deriving DecidableEq, Repr

/-- Message `EngineReturnedViolationForUnselectedRule` of messages.ts. -/
def msgEngineReturnedViolationForUnselectedRule (engineName ruleName : String) : String :=
  "Engine failure. The engine \"" ++ engineName ++ "\" returned a violation for rule \"" ++
    ruleName ++ "\" which was not selected."

/-- Message `EngineReturnedViolationWithInvalidPrimaryLocationIndex` of
messages.ts (`%d` markers already substituted with the rendered numbers). -/
def msgInvalidPrimaryLocationIndex (engineName ruleName idx len : String) : String :=
  "Engine failure. The engine \"" ++ engineName ++ "\" returned a violation for rule \"" ++
    ruleName ++ "\" that contains an out of bounds primary location index value of " ++
    idx ++ ". Expected a non-negative integer that is less than " ++ len ++ "."

/-- Message `EngineReturnedViolationWithCodeLocationFileThatDoesNotExist`. -/
def msgCodeLocationFileDoesNotExist (engineName ruleName absFile : String) : String :=
  "Engine failure. The engine \"" ++ engineName ++ "\" returned a violation for rule \"" ++
    ruleName ++ "\" that contains a code location with a file that does not exist: " ++ absFile

/-- Message `EngineReturnedViolationWithCodeLocationFileAsFolder`. -/
def msgCodeLocationFileAsFolder (engineName ruleName absFile : String) : String :=
  "Engine failure. The engine \"" ++ engineName ++ "\" returned a violation for rule \"" ++
    ruleName ++ "\" that contains a code location with a folder instead of a file: " ++ absFile

/-- Message `EngineReturnedViolationWithCodeLocationWithInvalidLineOrColumn`. -/
def msgCodeLocationInvalidLineOrColumn (engineName ruleName field value : String) : String :=
  "Engine failure. The engine \"" ++ engineName ++ "\" returned a violation for rule \"" ++
    ruleName ++ "\" that contains a code location with an invalid " ++ field ++
    " value: " ++ value

/-- Message `EngineReturnedViolationWithCodeLocationWithEndLineBeforeStartLine`. -/
def msgCodeLocationEndLineBeforeStartLine (engineName ruleName endLine startLine : String) :
    String :=
  "Engine failure. The engine \"" ++ engineName ++ "\" returned a violation for rule \"" ++
    ruleName ++ "\" that contains a code location with the endLine " ++ endLine ++
    " before the startLine " ++ startLine ++ "."

/-- Message
`EngineReturnedViolationWithCodeLocationWithEndColumnBeforeStartColumnOnSameLine`. -/
def msgCodeLocationEndColumnBeforeStartColumn (engineName ruleName endColumn startColumn :
    String) : String :=
  "Engine failure. The engine \"" ++ engineName ++ "\" returned a violation for rule \"" ++
    ruleName ++ "\" that contains a code location with the endLine equal to the startLine " ++
    "and the endColumn " ++ endColumn ++ " before the startColumn " ++ startColumn ++ "."

/-- `isIntegerBetween` (index.ts):
`value >= leftBound && value <= rightBound && Number.isInteger(value)`. -/
def isIntegerBetween (value leftBound rightBound : ℚ) : Bool :=
  decide (leftBound ≤ value) && decide (value ≤ rightBound) && (value.den == 1)

/-- The exact rational value of `Number.MAX_VALUE`, which is
`(2 ^ 53 - 1) * 2 ^ 971`, written as a numeral so that comparisons against it
evaluate by kernel reduction. -/
def maxNumberValue : ℚ :=
  (179769313486231570814527423731704356798070567525844996598917476803157260780028538760589558632766878171540458953514382464234321326889464182768467546703537516986049910576551282076245490090389328944075868508455133942304583236903222948165808559332123348274797826204144723168738177180919299881250404026184124858368 : ℚ)

/-- `isValidLineOrColumn` (index.ts). -/
def isValidLineOrColumn (value : ℚ) : Bool := isIntegerBetween value 1 maxNumberValue

/-- `validateViolationRuleName` (index.ts): the violation's rule must exist
in this engine's selection. -/
def validateViolationRuleName (violation : ApiViolation) (engineName : String)
    (ruleSelection : RuleSelectionImpl) : Except String Unit :=
  match ruleSelection.getRule engineName violation.ruleName with
  | .ok _ => .ok ()
  | .error _ =>
    .error (msgEngineReturnedViolationForUnselectedRule engineName violation.ruleName)

/-- `validateViolationPrimaryLocationIndex` (index.ts). -/
def validateViolationPrimaryLocationIndex (violation : ApiViolation) (engineName : String) :
    Except String Unit :=
  if !(isIntegerBetween violation.primaryLocationIndex 0
      ((violation.codeLocations.length : ℚ) - 1)) then
    .error (msgInvalidPrimaryLocationIndex engineName violation.ruleName
      (toString violation.primaryLocationIndex) (toString violation.codeLocations.length))
  else .ok ()

/-- The body of the `for` loop of `validateViolationCodeLocations`
(index.ts), for one code location. -/
def validateCodeLocation (fsys : FileSystem) (cwd : String) (engineName ruleName : String)
    (codeLocation : ApiCodeLocation) : Except String Unit :=
  let absFile := toAbsolutePath cwd codeLocation.file
  if !(fsys.existsSync absFile) then
    .error (msgCodeLocationFileDoesNotExist engineName ruleName absFile)
  else if !(fsys.isFile absFile) then
    .error (msgCodeLocationFileAsFolder engineName ruleName absFile)
  else if !(isValidLineOrColumn codeLocation.startLine) then
    .error (msgCodeLocationInvalidLineOrColumn engineName ruleName "startLine"
      (toString codeLocation.startLine))
  else if !(isValidLineOrColumn codeLocation.startColumn) then
    .error (msgCodeLocationInvalidLineOrColumn engineName ruleName "startColumn"
      (toString codeLocation.startColumn))
  else
    match codeLocation.endLine with
    | none => .ok ()
    | some endLine =>
      if !(isValidLineOrColumn endLine) then
        .error (msgCodeLocationInvalidLineOrColumn engineName ruleName "endLine"
          (toString endLine))
      else if endLine < codeLocation.startLine then
        .error (msgCodeLocationEndLineBeforeStartLine engineName ruleName
          (toString endLine) (toString codeLocation.startLine))
      else
        match codeLocation.endColumn with
        | none => .ok ()
        | some endColumn =>
          if !(isValidLineOrColumn endColumn) then
            .error (msgCodeLocationInvalidLineOrColumn engineName ruleName "endColumn"
              (toString endColumn))
          else if endLine == codeLocation.startLine ∧ endColumn < codeLocation.startColumn then
            .error (msgCodeLocationEndColumnBeforeStartColumn engineName ruleName
              (toString endColumn) (toString codeLocation.startColumn))
          else .ok ()

/-- `validateViolationCodeLocations` (index.ts): validate each location in
order, stopping at the first failure. -/
def validateViolationCodeLocations (fsys : FileSystem) (cwd : String)
    (violation : ApiViolation) (engineName : String) : Except String Unit :=
  violation.codeLocations.forM (validateCodeLocation fsys cwd engineName violation.ruleName)

/-- `validateEngineRunResults` (index.ts). -/
def validateEngineRunResults (fsys : FileSystem) (cwd : String) (engineName : String)
    (apiEngineRunResults : ApiEngineRunResults) (ruleSelection : RuleSelectionImpl) :
    Except String Unit :=
  apiEngineRunResults.violations.forM fun violation => do
    validateViolationRuleName violation engineName ruleSelection
    validateViolationPrimaryLocationIndex violation engineName
    validateViolationCodeLocations fsys cwd violation engineName

/-! ## Core result model (core results.ts) -/

/-- Message `UnexpectedEngineErrorRuleDescription` of messages.ts. -/
def msgUnexpectedEngineErrorRuleDescription (engineName : String) : String :=
  "This rule reports a violation when an unexpected error occurs from engine \"" ++
    engineName ++ "\"."

/-- Message `UnexpectedEngineErrorViolationMessage` of messages.ts. -/
def msgUnexpectedEngineErrorViolationMessage (engineName errMsg : String) : String :=
  "The engine with name \"" ++ engineName ++ "\" threw an unexpected error: " ++ errMsg

/-- Message `EngineRunResultsMissing` of messages.ts (source wording kept,
typo included). -/
def msgEngineRunResultsMissing (engineName : String) : String :=
  "Could to get results for engine \"" ++ engineName ++
    "\" since they are missing from the overall run results. " ++
    "Most likely the engine did not run."

/-- `Rule.getDescription` (rules.ts, both implementations). -/
def Rule.getDescription : Rule → String
  | .impl _ ruleDesc => ruleDesc.description
  | .unexpectedEngineError engineName => msgUnexpectedEngineErrorRuleDescription engineName

/-- The string value of a `RuleType` enum member. -/
def RuleType.name : RuleType → String
  | .Standard => "Standard"
  | .DataFlow => "DataFlow"
  | .Flow => "Flow"
  | .UnexpectedError => "UnexpectedError"

/-- The two `CodeLocation` implementations of results.ts:
`CodeLocationImpl` (wrapping an engine-supplied location) and
`UndefinedCodeLocation` (every accessor returns `undefined`). -/
inductive CodeLocation where
  | impl (apiCodeLocation : ApiCodeLocation)
  | undefinedLoc
deriving DecidableEq, Repr

/-- `getFile`: `CodeLocationImpl` resolves the engine-supplied path to an
absolute path; `UndefinedCodeLocation` returns `undefined`. -/
def CodeLocation.getFile (cwd : String) : CodeLocation → Option String
  | .impl l => some (toAbsolutePath cwd l.file)
  | .undefinedLoc => none

def CodeLocation.getStartLine : CodeLocation → Option ℚ
  | .impl l => some l.startLine
  | .undefinedLoc => none

def CodeLocation.getStartColumn : CodeLocation → Option ℚ
  | .impl l => some l.startColumn
  | .undefinedLoc => none

def CodeLocation.getEndLine : CodeLocation → Option ℚ
  | .impl l => l.endLine
  | .undefinedLoc => none

/-- `CodeLocationImpl.getEndColumn` (results.ts): `undefined` whenever
`getEndLine()` is `undefined`, otherwise the supplied `endColumn`. -/
def CodeLocation.getEndColumn : CodeLocation → Option ℚ
  | .impl l => if l.endLine = none then none else l.endColumn
  | .undefinedLoc => none

/-- The two `Violation` implementations of results.ts: `ViolationImpl` and
`UnexpectedEngineErrorViolation`. -/
inductive Violation where
  | impl (apiViolation : ApiViolation) (rule : Rule)
  | unexpectedEngineError (engineName : String) (errorMessage : String)
deriving DecidableEq, Repr

def Violation.getRule : Violation → Rule
  | .impl _ rule => rule
  | .unexpectedEngineError engineName _ => .unexpectedEngineError engineName

def Violation.getMessage : Violation → String
  | .impl apiViolation _ => apiViolation.message
  | .unexpectedEngineError engineName err =>
    msgUnexpectedEngineErrorViolationMessage engineName err

def Violation.getCodeLocations : Violation → List CodeLocation
  | .impl apiViolation _ => apiViolation.codeLocations.map CodeLocation.impl
  | .unexpectedEngineError _ _ => [.undefinedLoc]

def Violation.getPrimaryLocationIndex : Violation → ℚ
  | .impl apiViolation _ => apiViolation.primaryLocationIndex
  | .unexpectedEngineError _ _ => 0

/-- `ViolationImpl.getResourceUrls` (results.ts): the rule's urls, then the
violation-supplied urls not already among them (`!resourceUrls` is only
falsy for an absent array, so an empty supplied array also takes the second
branch; both give the same list).  The synthetic violation has no urls. -/
def Violation.getResourceUrls : Violation → List String
  | .impl apiViolation rule =>
    let urls := rule.getResourceUrls
    match apiViolation.resourceUrls with
    | none => urls
    | some vurls => urls ++ vurls.filter fun url => !(urls.contains url)
  | .unexpectedEngineError _ _ => []

/-- The two `EngineRunResults` implementations of results.ts:
`EngineRunResultsImpl` and `UnexpectedErrorEngineRunResults`. -/
inductive EngineRunResults where
  | impl (engineName : String) (apiEngineRunResults : ApiEngineRunResults)
      (ruleSelection : RuleSelectionImpl)
  | unexpectedError (engineName : String) (errorMessage : String)
deriving DecidableEq, Repr

def EngineRunResults.getEngineName : EngineRunResults → String
  | .impl engineName _ _ => engineName
  | .unexpectedError engineName _ => engineName

def EngineRunResults.getViolationCount : EngineRunResults → Nat
  | .impl _ apiEngineRunResults _ => apiEngineRunResults.violations.length
  | .unexpectedError _ _ => 1

/-- `getViolations`: `EngineRunResultsImpl` pairs every raw violation with
its selected rule (its `getRule` call throws when the rule is missing, hence
the `Except`); `UnexpectedErrorEngineRunResults` returns the one synthetic
violation. -/
def EngineRunResults.getViolations : EngineRunResults → Except String (List Violation)
  | .impl engineName apiEngineRunResults ruleSelection =>
    apiEngineRunResults.violations.mapM fun v =>
      (ruleSelection.getRule engineName v.ruleName).map fun rule => Violation.impl v rule
  | .unexpectedError engineName errorMessage =>
    .ok [Violation.unexpectedEngineError engineName errorMessage]

/-- `Map.set` on an insertion-ordered association list. -/
def mapSet {β : Type} : List (String × β) → String → β → List (String × β)
  | [], k, v => [(k, v)]
  | (k0, v0) :: rest, k, v =>
    if k0 = k then (k0, v) :: rest else (k0, v0) :: mapSet rest k v

/-- `RunResultsImpl` (results.ts): engine name → that engine's results, in
insertion order.  (The run directory it also carries is passed separately to
the formatter helpers here.) -/
structure RunResultsImpl where
  engineRunResultsMap : List (String × EngineRunResults) := []
deriving DecidableEq, Repr

def RunResultsImpl.addEngineRunResults (r : RunResultsImpl)
    (engineRunResults : EngineRunResults) : RunResultsImpl :=
  { engineRunResultsMap :=
      mapSet r.engineRunResultsMap engineRunResults.getEngineName engineRunResults }

def RunResultsImpl.getEngineNames (r : RunResultsImpl) : List String :=
  r.engineRunResultsMap.map Prod.fst

/-- `RunResultsImpl.getEngineRunResults`: throws for an engine that did not
run. -/
def RunResultsImpl.getEngineRunResults (r : RunResultsImpl) (engineName : String) :
    Except String EngineRunResults :=
  match assocLookup r.engineRunResultsMap engineName with
  | some engineRunResults => .ok engineRunResults
  | none => .error (msgEngineRunResultsMissing engineName)

/-! ## Formatter projection (output-format.ts) -/

/-- One row of formatter output (`ViolationOutput`); optional fields are
`undefined` (omitted by the CSV/JSON/XML projections) when `none`. -/
structure ViolationOutput where
  id : Nat
  rule : String
  engine : String
  severity : Nat
  type : String
  tags : List String
  file : Option String := none
  line : Option ℚ := none
  column : Option ℚ := none
  endLine : Option ℚ := none
  endColumn : Option ℚ := none
  pathLocations : Option (List String) := none
  message : String
  resources : List String
deriving DecidableEq, Repr

/-- `makeRelativeIfPossible` (output-format.ts). -/
def makeRelativeIfPossible (file rootDir : String) : String :=
  if strStartsWith file rootDir then file.drop rootDir.length else file

/-- `createLocationString` (output-format.ts), with JavaScript truthiness on
the file string (`""` falsy) and the line/column numbers (`0` falsy). -/
def createLocationString (cwd : String) (codeLocation : CodeLocation) (runDir : String) :
    String :=
  match codeLocation.getFile cwd with
  | none => ""
  | some f =>
    if f == "" then ""
    else
      makeRelativeIfPossible f runDir ++
        match codeLocation.getStartLine with
        | none => ""
        | some startLine =>
          if startLine == 0 then ""
          else
            ":" ++ toString startLine ++
              match codeLocation.getStartColumn with
              | none => ""
              | some startColumn =>
                if startColumn == 0 then "" else ":" ++ toString startColumn

/-- `createPathLocations` (output-format.ts). -/
def createPathLocations (cwd : String) (codeLocations : List CodeLocation)
    (runDir : String) : List String :=
  (codeLocations.map fun l => createLocationString cwd l runDir).filter
    fun s => decide (s.length > 0)

/-- `createViolationOutput` (output-format.ts).  JavaScript indexing of the
code-location array by `getPrimaryLocationIndex()` is modelled for in-range
integer indices (the validated case); `file` reproduces the source's
truthiness test on `getFile()`. -/
def createViolationOutput (cwd : String) (id : Nat) (violation : Violation)
    (runDir : String) : ViolationOutput :=
  let rule := violation.getRule
  let codeLocations := violation.getCodeLocations
  let primaryLocation :=
    codeLocations.getD violation.getPrimaryLocationIndex.num.toNat CodeLocation.undefinedLoc
  { id := id
    rule := rule.getName
    engine := rule.getEngineName
    severity := rule.getSeverityLevel.toNat
    type := rule.getType.name
    tags := rule.getTags
    file :=
      match primaryLocation.getFile cwd with
      | none => none
      | some f => if f == "" then none else some (makeRelativeIfPossible f runDir)
    line := primaryLocation.getStartLine
    column := primaryLocation.getStartColumn
    endLine := primaryLocation.getEndLine
    endColumn := primaryLocation.getEndColumn
    pathLocations :=
      if rule.getType = .DataFlow ∨ rule.getType = .Flow then
        some (createPathLocations cwd codeLocations runDir)
      else none
    message := violation.getMessage
    resources := violation.getResourceUrls }

/-! ## Claims about the result model (C7, C8, C10) -/

/-- C7: an `endColumn` without an `endLine` is ignored, not rejected —
validation of a code location with no `endLine` never reads `endColumn`
(same outcome for any supplied value), such a location passes validation
when its file and start fields are in order, and the resulting
`CodeLocation`'s `getEndColumn()` is `undefined` whenever `endLine` is. -/
theorem endColumn_without_endLine_ignored :
    (∀ (fsys : FileSystem) (cwd engineName ruleName : String) (loc : ApiCodeLocation)
        (c : Option ℚ), loc.endLine = none →
        validateCodeLocation fsys cwd engineName ruleName { loc with endColumn := c } =
          validateCodeLocation fsys cwd engineName ruleName { loc with endColumn := none }) ∧
      (∀ loc : ApiCodeLocation, loc.endLine = none →
        CodeLocation.getEndColumn (.impl loc) = none) ∧
      (∀ (fsys : FileSystem) (cwd engineName ruleName : String) (loc : ApiCodeLocation),
        loc.endLine = none →
        fsys.existsSync (toAbsolutePath cwd loc.file) = true →
        fsys.isFile (toAbsolutePath cwd loc.file) = true →
        isValidLineOrColumn loc.startLine = true →
        isValidLineOrColumn loc.startColumn = true →
        validateCodeLocation fsys cwd engineName ruleName loc = .ok ()) := by
  refine ⟨?_, ?_, ?_⟩
  · intro fsys cwd engineName ruleName loc c h
    simp [validateCodeLocation, h]
  · intro loc h
    simp [CodeLocation.getEndColumn, h]
  · intro fsys cwd engineName ruleName loc h hex hisf hsl hsc
    simp [validateCodeLocation, h, hex, hisf, hsl, hsc]

/-- A concrete location with no `endLine` used by the C7 witness. -/
def sampleLoc : ApiCodeLocation :=
  { file := "/f", startLine := 3, startColumn := 2 }

/-- C7 witness: a concrete location carrying `endColumn := 7` and no
`endLine` validates successfully against the sample filesystem and its
`getEndColumn()` is `undefined`. -/
theorem endColumn_without_endLine_ignored_witness :
    validateCodeLocation sampleFS "/" "eng" "rule" { sampleLoc with endColumn := some 7 } =
        validateCodeLocation sampleFS "/" "eng" "rule"
          { sampleLoc with endColumn := none } ∧
      CodeLocation.getEndColumn
          (CodeLocation.impl { sampleLoc with endColumn := some 7 }) = none ∧
      validateCodeLocation sampleFS "/" "eng" "rule"
          { sampleLoc with endColumn := some 7 } = .ok () :=
  ⟨endColumn_without_endLine_ignored.1 sampleFS "/" "eng" "rule" sampleLoc (some 7) rfl,
    endColumn_without_endLine_ignored.2.1 { sampleLoc with endColumn := some 7 } rfl,
    endColumn_without_endLine_ignored.2.2 sampleFS "/" "eng" "rule"
      { sampleLoc with endColumn := some 7 } rfl (by decide) (by decide) (by decide)
      (by decide)⟩

/-- C8: `getResourceUrls()` returns the rule's urls in order, then the
violation-supplied urls not already among them (case-sensitive equality,
order preserved); with no violation urls it is exactly the rule's urls. -/
theorem violation_getResourceUrls_spec :
    (∀ (v : ApiViolation) (rule : Rule),
        (Violation.impl v rule).getResourceUrls =
          rule.getResourceUrls ++
            (v.resourceUrls.getD []).filter
              fun url => !(rule.getResourceUrls.contains url)) ∧
      (∀ (v : ApiViolation) (rule : Rule), v.resourceUrls = none →
        (Violation.impl v rule).getResourceUrls = rule.getResourceUrls) := by
  constructor
  · intro v rule
    cases h : v.resourceUrls with
    | none => simp [Violation.getResourceUrls, h]
    | some vurls => simp [Violation.getResourceUrls, h]
  · intro v rule h
    simp [Violation.getResourceUrls, h]

/-- C8 witness: the theorem applied to a concrete violation with overlapping
urls and to one with no urls. -/
theorem violation_getResourceUrls_spec_witness :
    (Violation.impl
          { ruleName := "r", message := "m",
            codeLocations := [], primaryLocationIndex := 0,
            resourceUrls := some ["https://b", "https://a", "https://c"] }
          (.impl "eng"
            { name := "r", severityLevel := .Moderate, type := .Standard, tags := [],
              description := "", resourceUrls := ["https://a", "https://b"] })).getResourceUrls =
        ["https://a", "https://b"] ++
          (["https://b", "https://a", "https://c"].filter
            fun url => !(["https://a", "https://b"].contains url)) ∧
      (Violation.impl
          { ruleName := "r", message := "m",
            codeLocations := [], primaryLocationIndex := 0, resourceUrls := none }
          (.impl "eng"
            { name := "r", severityLevel := .Moderate, type := .Standard, tags := [],
              description := "", resourceUrls := ["https://a", "https://b"] })).getResourceUrls =
        ["https://a", "https://b"] :=
  ⟨violation_getResourceUrls_spec.1 _ _, violation_getResourceUrls_spec.2 _ _ rfl⟩

/-- C10: the synthetic violation of a crashed engine has exactly one code
location whose five accessors all return `undefined`, primary location index
0, and no resource urls; the primary-location-index invariant holds for it;
and the formatter projection leaves its file/line/column/endLine/endColumn
fields undefined. -/
theorem unexpectedEngineErrorViolation_shape (engineName errMsg cwd runDir : String)
    (id : Nat) :
    (Violation.unexpectedEngineError engineName errMsg).getCodeLocations =
        [CodeLocation.undefinedLoc] ∧
      CodeLocation.getFile cwd CodeLocation.undefinedLoc = none ∧
      CodeLocation.getStartLine CodeLocation.undefinedLoc = none ∧
      CodeLocation.getStartColumn CodeLocation.undefinedLoc = none ∧
      CodeLocation.getEndLine CodeLocation.undefinedLoc = none ∧
      CodeLocation.getEndColumn CodeLocation.undefinedLoc = none ∧
      (Violation.unexpectedEngineError engineName errMsg).getPrimaryLocationIndex = 0 ∧
      (Violation.unexpectedEngineError engineName errMsg).getResourceUrls = [] ∧
      (0 ≤ (Violation.unexpectedEngineError engineName errMsg).getPrimaryLocationIndex ∧
        (Violation.unexpectedEngineError engineName errMsg).getPrimaryLocationIndex <
          ((Violation.unexpectedEngineError engineName errMsg).getCodeLocations.length : ℚ)) ∧
      (createViolationOutput cwd id (Violation.unexpectedEngineError engineName errMsg)
          runDir).file = none ∧
      (createViolationOutput cwd id (Violation.unexpectedEngineError engineName errMsg)
          runDir).line = none ∧
      (createViolationOutput cwd id (Violation.unexpectedEngineError engineName errMsg)
          runDir).column = none ∧
      (createViolationOutput cwd id (Violation.unexpectedEngineError engineName errMsg)
          runDir).endLine = none ∧
      (createViolationOutput cwd id (Violation.unexpectedEngineError engineName errMsg)
          runDir).endColumn = none :=
  ⟨rfl, rfl, rfl, rfl, rfl, rfl, rfl, rfl,
    ⟨le_refl 0, by show (0 : ℚ) < ((1 : ℕ) : ℚ); norm_num⟩,
    rfl, rfl, rfl, rfl, rfl⟩

/-! ## Run pipeline (index.ts `run` / `runEngineAndValidateResults`) -/

/-- `engApi.RunOptions`: the normalized options handed to engines. -/
structure EngineRunOptions where
  workspaceFiles : List String
  pathStartPoints : Option (List PathPoint) := none
deriving DecidableEq, Repr

/-- The `RunOptions` the caller hands to `run()` (index.ts). -/
structure RunOptions where
  workspaceFiles : List String
  pathStartPoints : Option (List String) := none
deriving DecidableEq, Repr

/-- `fileIsUnderneath` (index.ts). -/
def fileIsUnderneath (fsys : FileSystem) (file : String) (filesOrFolders : List String) :
    Bool :=
  filesOrFolders.any fun fileOrFolder =>
    fileOrFolder == file || (fsys.isDirectory fileOrFolder && strStartsWith file fileOrFolder)

/-- `validatePathStartPointsAreInsideWorkspace` (index.ts). -/
def validatePathStartPointsAreInsideWorkspace (fsys : FileSystem)
    (engineRunOptions : EngineRunOptions) : Except String Unit :=
  match engineRunOptions.pathStartPoints with
  | none => .ok ()
  | some pathStartPoints =>
    pathStartPoints.forM fun enginePathStartPoint =>
      if !(fileIsUnderneath fsys enginePathStartPoint.file
          engineRunOptions.workspaceFiles) then
        .error (msgPathStartPointMustBeInsideWorkspace enginePathStartPoint.file
          (jsonStringifyStringList engineRunOptions.workspaceFiles))
      else .ok ()

/-- `extractEngineRunOptions` (index.ts): a non-empty workspace whose entries
all exist, made absolute, de-duplicated and sorted; path start points parsed
and checked to lie inside the workspace. -/
def extractEngineRunOptions (fsys : FileSystem) (cwd : String) (runOptions : RunOptions) :
    Except String EngineRunOptions := do
  if runOptions.workspaceFiles.length == 0 then
    throw msgAtLeastOneFileOrFolderMustBeIncluded
  let ws ← runOptions.workspaceFiles.mapM (validateFileOrFolder fsys cwd)
  let base : EngineRunOptions := { workspaceFiles := removeRedundantPaths ws }
  let engineRunOptions ←
    match runOptions.pathStartPoints with
    | some pathStartPoints =>
      if pathStartPoints.length > 0 then do
        let pts ← pathStartPoints.mapM (extractEnginePathStartPoints fsys cwd)
        pure { base with pathStartPoints := some pts.flatten }
      else pure base
    | none => pure base
  validatePathStartPointsAreInsideWorkspace fsys engineRunOptions
  pure engineRunOptions

/-- The behavior of one engine as consumed through the engine contract
(engine-api `Engine`): `validate` and `describeRules` are the outcomes of
those async calls (`.error` = the call threw) and `runRules` maps the
selected rule names and normalized options to that call's outcome. -/
structure EngineDef where
  getName : String
  validate : Except String Unit := .ok ()
  describeRules : Except String (List RuleDescription) := .ok []
  runRules : List String → EngineRunOptions → Except String ApiEngineRunResults

/-- `runEngineAndValidateResults` (index.ts): compute the engine's selected
rule names, call `runRules`, downgrade a throw to
`UnexpectedErrorEngineRunResults`, and otherwise validate the raw results
(fatally).  The source looks the engine up with a cast that assumes
presence; a missing engine is modelled as a distinguished error, and every
theorem below carries the presence hypothesis. -/
def runEngineAndValidateResults (fsys : FileSystem) (cwd : String)
    (engines : List (String × EngineDef)) (engineName : String)
    (ruleSelection : RuleSelectionImpl) (engineRunOptions : EngineRunOptions) :
    Except String EngineRunResults :=
  let rulesToRun := (ruleSelection.getRulesFor engineName).map Rule.getName
  match assocLookup engines engineName with
  | none => .error "MISSING_ENGINE"
  | some engine =>
    match engine.runRules rulesToRun engineRunOptions with
    | .error error => .ok (.unexpectedError engineName error)
    | .ok apiEngineRunResults => do
      validateEngineRunResults fsys cwd engineName apiEngineRunResults ruleSelection
      pure (.impl engineName apiEngineRunResults ruleSelection)

/-- `CodeAnalyzer.run` (index.ts): normalize the inputs, then run the
selection's engines in its order, folding each engine's results into the
aggregate keyed by engine name.  (The progress/results events emitted along
the way carry no data any claim concerns and are not modelled.) -/
def CodeAnalyzer.run (fsys : FileSystem) (cwd : String)
    (engines : List (String × EngineDef)) (ruleSelection : RuleSelectionImpl)
    (runOptions : RunOptions) : Except String RunResultsImpl := do
  let engineRunOptions ← extractEngineRunOptions fsys cwd runOptions
  ruleSelection.getEngineNames.foldlM
    (fun runResults engineName => do
      let engineRunResults ←
        runEngineAndValidateResults fsys cwd engines engineName ruleSelection
          engineRunOptions
      pure (runResults.addEngineRunResults engineRunResults))
    {}

theorem assocLookup_mapSet {β : Type} (m : List (String × β)) (k : String) (v : β)
    (k2 : String) :
    assocLookup (mapSet m k v) k2 = if k = k2 then some v else assocLookup m k2 := by
  induction m with
  | nil =>
    simp only [mapSet, assocLookup]
  | cons hd rest ih =>
    obtain ⟨k0, v0⟩ := hd
    simp only [mapSet]
    by_cases h0 : k0 = k
    · subst h0
      simp only [if_pos rfl, assocLookup]
      by_cases h2 : k0 = k2 <;> simp [h2]
    · rw [if_neg h0]
      simp only [assocLookup, ih]
      by_cases h2 : k0 = k2
      · subst h2
        have : ¬k = k0 := fun h => h0 h.symm
        simp [this]
      · simp [h2]

theorem runEngineAndValidateResults_getEngineName (fsys : FileSystem) (cwd : String)
    (engines : List (String × EngineDef)) (engineName : String)
    (ruleSelection : RuleSelectionImpl) (engineRunOptions : EngineRunOptions)
    (r : EngineRunResults)
    (h : runEngineAndValidateResults fsys cwd engines engineName ruleSelection
      engineRunOptions = .ok r) :
    r.getEngineName = engineName := by
  unfold runEngineAndValidateResults at h
  simp only [] at h
  cases hl : assocLookup engines engineName with
  | none =>
    rw [hl] at h
    exact Except.noConfusion h
  | some engine =>
    rw [hl] at h
    simp only [] at h
    cases hr : engine.runRules ((ruleSelection.getRulesFor engineName).map Rule.getName)
        engineRunOptions with
    | error e =>
      rw [hr] at h
      cases h
      rfl
    | ok api =>
      rw [hr] at h
      simp only [] at h
      cases hv : validateEngineRunResults fsys cwd engineName api ruleSelection with
      | error e =>
        rw [hv] at h
        exact Except.noConfusion h
      | ok u =>
        rw [hv] at h
        cases h
        rfl

theorem runLoop_lookup (fsys : FileSystem) (cwd : String)
    (engines : List (String × EngineDef)) (ruleSelection : RuleSelectionImpl)
    (engineRunOptions : EngineRunOptions) (names : List String) (acc : RunResultsImpl)
    (hnodup : names.Nodup)
    (hok : ∀ m ∈ names, ∃ r, runEngineAndValidateResults fsys cwd engines m ruleSelection
      engineRunOptions = .ok r) :
    ∃ res,
      (names.foldlM
          (fun runResults engineName => do
            let engineRunResults ←
              runEngineAndValidateResults fsys cwd engines engineName ruleSelection
                engineRunOptions
            pure (runResults.addEngineRunResults engineRunResults))
          acc) = .ok res ∧
        (∀ m r, m ∈ names →
          runEngineAndValidateResults fsys cwd engines m ruleSelection engineRunOptions =
            .ok r →
          assocLookup res.engineRunResultsMap m = some r) ∧
        (∀ m, m ∉ names →
          assocLookup res.engineRunResultsMap m = assocLookup acc.engineRunResultsMap m) := by
  induction names generalizing acc with
  | nil =>
    refine ⟨acc, rfl, ?_, ?_⟩
    · intro m r hm
      exact absurd hm (List.not_mem_nil m)
    · intro m _
      rfl
  | cons n rest ih =>
    obtain ⟨r0, hr0⟩ := hok n (List.mem_cons_self n rest)
    have hname : r0.getEngineName = n :=
      runEngineAndValidateResults_getEngineName fsys cwd engines n ruleSelection
        engineRunOptions r0 hr0
    have hnotin : n ∉ rest := (List.nodup_cons.mp hnodup).1
    obtain ⟨res, hfold, hmemlk, houtlk⟩ :=
      ih (acc.addEngineRunResults r0) (List.nodup_cons.mp hnodup).2
        (fun m hm => hok m (List.mem_cons_of_mem n hm))
    refine ⟨res, ?_, ?_, ?_⟩
    · rw [List.foldlM_cons, hr0]
      exact hfold
    · intro m r hm hr
      rcases List.mem_cons.mp hm with hmn | hmrest
      · subst hmn
        have : r = r0 := by
          rw [hr0] at hr
          exact (Except.ok.inj hr).symm
        subst this
        rw [houtlk m hnotin]
        simp only [RunResultsImpl.addEngineRunResults, hname, assocLookup_mapSet]
        simp
      · exact hmemlk m r hmrest hr
    · intro m hm
      have hmn : m ≠ n := fun h => hm (h ▸ List.mem_cons_self n rest)
      have hmrest : m ∉ rest := fun h => hm (List.mem_cons_of_mem n h)
      rw [houtlk m hmrest]
      simp only [RunResultsImpl.addEngineRunResults, hname, assocLookup_mapSet]
      rw [if_neg (show ¬n = m from fun h => hmn h.symm)]

/-- C1: when input normalization succeeds and no engine produces a fatally
invalid result, an engine whose `runRules` call throws does not abort the
run: the aggregate maps that engine to `UnexpectedErrorEngineRunResults`,
whose violation list is exactly one violation carrying the synthetic
Critical, type-UnexpectedError rule and a message ending in the underlying
error text; and every engine of the selection still contributes its own
results to the aggregate. -/
theorem run_isolates_throwing_engine (fsys : FileSystem) (cwd : String)
    (engines : List (String × EngineDef)) (ruleSelection : RuleSelectionImpl)
    (runOptions : RunOptions) (engineRunOptions : EngineRunOptions) (n : String)
    (engine : EngineDef) (err : String)
    (hex : extractEngineRunOptions fsys cwd runOptions = .ok engineRunOptions)
    (hnodup : ruleSelection.getEngineNames.Nodup)
    (hmem : n ∈ ruleSelection.getEngineNames)
    (hl : assocLookup engines n = some engine)
    (hthrow : engine.runRules ((ruleSelection.getRulesFor n).map Rule.getName)
      engineRunOptions = .error err)
    (hok : ∀ m ∈ ruleSelection.getEngineNames,
      ∃ r, runEngineAndValidateResults fsys cwd engines m ruleSelection engineRunOptions =
        .ok r) :
    ∃ results, CodeAnalyzer.run fsys cwd engines ruleSelection runOptions = .ok results ∧
      results.getEngineRunResults n = .ok (.unexpectedError n err) ∧
      (EngineRunResults.unexpectedError n err).getViolations =
        .ok [Violation.unexpectedEngineError n err] ∧
      (EngineRunResults.unexpectedError n err).getViolationCount = 1 ∧
      (Violation.unexpectedEngineError n err).getRule.getSeverityLevel = .Critical ∧
      (Violation.unexpectedEngineError n err).getRule.getType = .UnexpectedError ∧
      (∃ head, (Violation.unexpectedEngineError n err).getMessage = head ++ err) ∧
      (∀ m ∈ ruleSelection.getEngineNames,
        ∃ r, runEngineAndValidateResults fsys cwd engines m ruleSelection engineRunOptions =
            .ok r ∧
          results.getEngineRunResults m = .ok r) := by
  have hstep : runEngineAndValidateResults fsys cwd engines n ruleSelection
      engineRunOptions = .ok (.unexpectedError n err) := by
    unfold runEngineAndValidateResults
    simp only []
    rw [hl]
    simp only []
    rw [hthrow]
  obtain ⟨res, hfold, hmemlk, _⟩ :=
    runLoop_lookup fsys cwd engines ruleSelection engineRunOptions
      ruleSelection.getEngineNames {} hnodup hok
  refine ⟨res, ?_, ?_, rfl, rfl, rfl, rfl,
    ⟨"The engine with name \"" ++ n ++ "\" threw an unexpected error: ", rfl⟩, ?_⟩
  · unfold CodeAnalyzer.run
    rw [hex]
    exact hfold
  · unfold RunResultsImpl.getEngineRunResults
    rw [hmemlk n (.unexpectedError n err) hmem hstep]
  · intro m hm
    obtain ⟨r, hr⟩ := hok m hm
    refine ⟨r, hr, ?_⟩
    unfold RunResultsImpl.getEngineRunResults
    rw [hmemlk m r hm hr]

/-- The throwing engine of the C1 witness. -/
def demoEngineA : EngineDef :=
  { getName := "A", runRules := fun _ _ => .error "boom" }

/-- The well-behaved engine of the C1 witness. -/
def demoEngineB : EngineDef :=
  { getName := "B", runRules := fun _ _ => .ok { violations := [] } }

/-- The registry of the C1 witness. -/
def demoEngines : List (String × EngineDef) := [("A", demoEngineA), ("B", demoEngineB)]

/-- A two-engine selection (with no rules, which `runRules` ignores here). -/
def demoSel : RuleSelectionImpl := { ruleMap := [("A", []), ("B", [])] }

/-- The run options of the C1 witness. -/
def demoRunOptions : RunOptions := { workspaceFiles := ["/f"] }

/-- The normalized options the C1 witness's extraction produces. -/
def demoEngineOpts : EngineRunOptions := { workspaceFiles := ["/f"] }

/-- C1 witness: the theorem applied to the concrete registry in which engine
`A` throws `"boom"` and engine `B` returns no violations. -/
theorem run_isolates_throwing_engine_witness :
    ∃ results, CodeAnalyzer.run sampleFS "/" demoEngines demoSel demoRunOptions =
        .ok results ∧
      results.getEngineRunResults "A" = .ok (.unexpectedError "A" "boom") ∧
      (EngineRunResults.unexpectedError "A" "boom").getViolations =
        .ok [Violation.unexpectedEngineError "A" "boom"] ∧
      (EngineRunResults.unexpectedError "A" "boom").getViolationCount = 1 ∧
      (Violation.unexpectedEngineError "A" "boom").getRule.getSeverityLevel = .Critical ∧
      (Violation.unexpectedEngineError "A" "boom").getRule.getType = .UnexpectedError ∧
      (∃ head, (Violation.unexpectedEngineError "A" "boom").getMessage = head ++ "boom") ∧
      (∀ m ∈ demoSel.getEngineNames,
        ∃ r, runEngineAndValidateResults sampleFS "/" demoEngines m demoSel demoEngineOpts =
            .ok r ∧
          results.getEngineRunResults m = .ok r) :=
  run_isolates_throwing_engine sampleFS "/" demoEngines demoSel demoRunOptions
    demoEngineOpts "A" demoEngineA "boom" rfl (by decide) (by decide) rfl rfl
    (by
      intro m hm
      rcases List.mem_cons.mp hm with h | h
      · subst h
        exact ⟨.unexpectedError "A" "boom", rfl⟩
      · rcases List.mem_cons.mp h with h2 | h2
        · subst h2
          exact ⟨.impl "B" { violations := [] } demoSel, rfl⟩
        · exact absurd h2 (List.not_mem_nil m))

theorem exceptBind_ok {ε α β : Type} (a : α) (f : α → Except ε β) :
    (Except.ok a >>= f) = f a := rfl

theorem exceptBind_error {ε α β : Type} (e : ε) (f : α → Except ε β) :
    ((Except.error e : Except ε α) >>= f) = .error e := rfl

theorem isIntegerBetween_zero_len (q : ℚ) (len : ℕ) :
    isIntegerBetween q 0 ((len : ℚ) - 1) = true ↔ ∃ k : ℕ, q = (k : ℚ) ∧ k < len := by
  unfold isIntegerBetween
  simp only [Bool.and_eq_true, decide_eq_true_eq, beq_iff_eq]
  constructor
  · rintro ⟨⟨h0, h1⟩, hden⟩
    have hq : (q.num : ℚ) = q := (Rat.den_eq_one_iff q).mp hden
    have hnum0 : 0 ≤ q.num := Rat.num_nonneg.mpr h0
    refine ⟨q.num.toNat, ?_, ?_⟩
    · calc q = (q.num : ℚ) := hq.symm
        _ = ((q.num.toNat : ℕ) : ℚ) := by exact_mod_cast (Int.toNat_of_nonneg hnum0).symm
    · rw [← hq] at h1
      have h2 : (q.num : ℚ) ≤ ((len : ℤ) : ℚ) - 1 := by exact_mod_cast h1
      have h3 : q.num ≤ (len : ℤ) - 1 := by exact_mod_cast h2
      omega
  · rintro ⟨k, rfl, hk⟩
    refine ⟨⟨Nat.cast_nonneg k, ?_⟩, by simp⟩
    have : (k : ℚ) + 1 ≤ (len : ℚ) := by exact_mod_cast Nat.succ_le_of_lt hk
    linarith

theorem validateIdx_at_len (v : ApiViolation) (e : String)
    (h : v.primaryLocationIndex = (v.codeLocations.length : ℚ)) :
    validateViolationPrimaryLocationIndex v e =
      .error (msgInvalidPrimaryLocationIndex e v.ruleName
        (toString v.primaryLocationIndex) (toString v.codeLocations.length)) := by
  have hb : isIntegerBetween v.primaryLocationIndex 0
      ((v.codeLocations.length : ℚ) - 1) = false := by
    unfold isIntegerBetween
    rw [h]
    have hnot : ¬((v.codeLocations.length : ℚ) ≤ (v.codeLocations.length : ℚ) - 1) := by
      linarith
    rw [decide_eq_false hnot]
    simp
  unfold validateViolationPrimaryLocationIndex
  rw [hb]
  rfl

/-- C4: engine-result validation accepts a violation's
`primaryLocationIndex` exactly when it is an integer in
`[0, codeLocations.length)` and otherwise produces the bounds error naming
the engine, the rule, the index and the length; in a run whose engine
returns a violation with index equal to `codeLocations.length`, the whole
run aborts with that bounds error. -/
theorem primaryLocationIndex_bounds_enforced :
    (∀ (violation : ApiViolation) (engineName : String),
        (validateViolationPrimaryLocationIndex violation engineName = .ok () ↔
          ∃ k : ℕ, violation.primaryLocationIndex = (k : ℚ) ∧
            k < violation.codeLocations.length) ∧
        (validateViolationPrimaryLocationIndex violation engineName ≠ .ok () →
          validateViolationPrimaryLocationIndex violation engineName =
            .error (msgInvalidPrimaryLocationIndex engineName violation.ruleName
              (toString violation.primaryLocationIndex)
              (toString violation.codeLocations.length)))) ∧
      (∀ (fsys : FileSystem) (cwd : String) (engines : List (String × EngineDef))
        (ruleSelection : RuleSelectionImpl) (runOptions : RunOptions)
        (engineRunOptions : EngineRunOptions) (n : String) (engine : EngineDef)
        (v : ApiViolation) (rule : Rule),
        extractEngineRunOptions fsys cwd runOptions = .ok engineRunOptions →
        ruleSelection.getEngineNames = [n] →
        assocLookup engines n = some engine →
        engine.runRules ((ruleSelection.getRulesFor n).map Rule.getName) engineRunOptions =
          .ok { violations := [v] } →
        ruleSelection.getRule n v.ruleName = .ok rule →
        v.primaryLocationIndex = (v.codeLocations.length : ℚ) →
        CodeAnalyzer.run fsys cwd engines ruleSelection runOptions =
          .error (msgInvalidPrimaryLocationIndex n v.ruleName
            (toString v.primaryLocationIndex) (toString v.codeLocations.length))) := by
  constructor
  · intro violation engineName
    have hiff : validateViolationPrimaryLocationIndex violation engineName = .ok () ↔
        isIntegerBetween violation.primaryLocationIndex 0
          ((violation.codeLocations.length : ℚ) - 1) = true := by
      unfold validateViolationPrimaryLocationIndex
      cases hb : isIntegerBetween violation.primaryLocationIndex 0
          ((violation.codeLocations.length : ℚ) - 1) with
      | true => simp
      | false => simp
    constructor
    · rw [hiff, isIntegerBetween_zero_len]
    · intro hne
      cases hb : isIntegerBetween violation.primaryLocationIndex 0
          ((violation.codeLocations.length : ℚ) - 1) with
      | true =>
        exfalso
        apply hne
        unfold validateViolationPrimaryLocationIndex
        rw [hb]
        rfl
      | false =>
        unfold validateViolationPrimaryLocationIndex
        rw [hb]
        rfl
  · intro fsys cwd engines ruleSelection runOptions engineRunOptions n engine v rule
      hex hnames hl hrun hrule hidx
    have hv1 : validateViolationRuleName v n ruleSelection = .ok () := by
      unfold validateViolationRuleName
      rw [hrule]
    have hv2 := validateIdx_at_len v n hidx
    unfold CodeAnalyzer.run
    rw [hex, exceptBind_ok]
    rw [hnames]
    simp only [List.foldlM_cons, List.foldlM_nil]
    have hstep : runEngineAndValidateResults fsys cwd engines n ruleSelection
        engineRunOptions =
        .error (msgInvalidPrimaryLocationIndex n v.ruleName
          (toString v.primaryLocationIndex) (toString v.codeLocations.length)) := by
      unfold runEngineAndValidateResults
      simp only []
      rw [hl]
      simp only []
      rw [hrun]
      simp only []
      unfold validateEngineRunResults
      simp only [List.forM_cons']
      rw [hv1, exceptBind_ok]
      rw [hv2]
      rfl
    rw [hstep]
    rfl

/-- The selected rule of the C4 witness. -/
def demoRule : Rule :=
  .impl "C"
    { name := "r", severityLevel := .Low, type := .Standard, tags := [],
      description := "", resourceUrls := [] }

/-- A violation whose primary location index equals its (one-element)
code-location list length. -/
def demoViolation : ApiViolation :=
  { ruleName := "r", message := "m",
    codeLocations := [{ file := "/f", startLine := 1, startColumn := 1 }],
    primaryLocationIndex := 1 }

/-- The engine of the C4 witness, returning `demoViolation`. -/
def demoEngineC : EngineDef :=
  { getName := "C", runRules := fun _ _ => .ok { violations := [demoViolation] } }

/-- The selection of the C4 witness. -/
def demoSelC : RuleSelectionImpl := { ruleMap := [("C", [demoRule])] }

/-- C4 witness: the theorem applied to the concrete violation whose index
equals its code-location count — both the validator and a whole run produce
the bounds error. -/
theorem primaryLocationIndex_bounds_enforced_witness :
    validateViolationPrimaryLocationIndex demoViolation "C" =
        .error (msgInvalidPrimaryLocationIndex "C" "r"
          (toString demoViolation.primaryLocationIndex)
          (toString demoViolation.codeLocations.length)) ∧
      CodeAnalyzer.run sampleFS "/" [("C", demoEngineC)] demoSelC demoRunOptions =
        .error (msgInvalidPrimaryLocationIndex "C" "r"
          (toString demoViolation.primaryLocationIndex)
          (toString demoViolation.codeLocations.length)) :=
  ⟨(primaryLocationIndex_bounds_enforced.1 demoViolation "C").2
      (by
        intro h
        rw [validateIdx_at_len demoViolation "C" (by decide)] at h
        exact Except.noConfusion h),
    primaryLocationIndex_bounds_enforced.2 sampleFS "/" [("C", demoEngineC)] demoSelC
      demoRunOptions demoEngineOpts "C" demoEngineC demoViolation demoRule
      rfl rfl rfl rfl rfl (by decide)⟩

/-! ## Engine registration (index.ts `addEnginePlugin`, C2) -/

/-- `LogLevel` enum of events.ts. -/
inductive LogLevel where
  | Error
  | Warn
  | Info
  | Debug
  | Fine
deriving DecidableEq, Repr

/-- Message `DuplicateEngine` of messages.ts. -/
def msgDuplicateEngine (engineName : String) : String :=
  "Failed to add engine with name \"" ++ engineName ++
    "\" because an engine with this name has already been added to Code Analyzer."

/-- Message `EngineNameContradiction` of messages.ts. -/
def msgEngineNameContradiction (engineName realName : String) : String :=
  "Failed to add engine with name \"" ++ engineName ++
    "\" because its getName() method returns a different name of \"" ++ realName ++ "\"."

/-- Message `EngineValidationFailed` of messages.ts. -/
def msgEngineValidationFailed (engineName errMsg : String) : String :=
  "Failed to add engine with name \"" ++ engineName ++
    "\" because it failed validation:\n" ++ errMsg

/-- Message `EngineAdded` of messages.ts. -/
def msgEngineAdded (engineName : String) : String :=
  "Engine with name \"" ++ engineName ++ "\" was added to Code Analyzer."

/-- Message `EngineFromFutureApiDetected` of messages.ts. -/
def msgEngineFromFutureApiDetected (apiVersion engineNames currentVersion : String) :
    String :=
  "The following engines use the engine api version " ++ apiVersion ++ ": " ++
    engineNames ++ ".\n" ++
    "This version of Code Analyzer only has knowledge of the " ++ currentVersion ++
    " engine api.\n" ++
    "Therefore some capabilities from these engines may not fully work with this " ++
    "version of Code Analyzer."

/-- Message `PluginErrorFromGetAvailableEngineNames` of messages.ts. -/
def msgPluginErrorFromGetAvailableEngineNames (errMsg : String) : String :=
  "Failed to add engine plugin. The plugin's getAvailableNames method threw an error:\n" ++
    errMsg

/-- Message `PluginErrorFromCreateEngine` of messages.ts. -/
def msgPluginErrorFromCreateEngine (engineName errMsg : String) : String :=
  "Failed to create engine with name \"" ++ engineName ++
    "\". The plugin's createEngine method threw an error:\n" ++ errMsg

/-- Message `EngineReturnedMultipleRulesWithSameName` of messages.ts. -/
def msgEngineReturnedMultipleRulesWithSameName (engineName ruleName : String) : String :=
  "Engine failure. The engine \"" ++ engineName ++
    "\" returned more than one rule with the name \"" ++ ruleName ++ "\"."

/-- Message `RulePropertyOverridden` of messages.ts. -/
def msgRulePropertyOverridden (field ruleName engineName oldValue newValue : String) :
    String :=
  "The " ++ field ++ " value of rule \"" ++ ruleName ++ "\" of engine \"" ++ engineName ++
    "\" was overridden according to the specified configuration. The old value of " ++
    oldValue ++ " was replaced with the new value of " ++ newValue ++ "."

/-- Engine-specific configuration objects are consumed opaquely by plugins;
nothing in the orchestration core reads them. -/
abbrev ConfigObject := Unit

/-- `RuleOverride` (config.ts). -/
structure RuleOverride where
  severity : Option SeverityLevel := none
  tags : Option (List String) := none
deriving DecidableEq, Repr

/-- The slice of `CodeAnalyzerConfig` the registration path reads. -/
structure CodeAnalyzerConfig where
  getRuleOverrideFor : String → String → RuleOverride

/-- `engApi.EnginePlugin`: api version, advertised engine names (`.error` =
the call threw) and the engine factory. -/
structure EnginePluginDef where
  getApiVersion : ℚ
  getAvailableEngineNames : Except String (List String)
  createEngine : String → ConfigObject → Except String EngineDef

/-- `engApi.ENGINE_API_VERSION`. -/
def ENGINE_API_VERSION : ℚ := 1

/-- The orchestrator state `addEnginePlugin` manipulates: the engine
registry, the rule catalog, and the log events emitted so far (in emission
order). -/
structure AnalyzerState where
  engines : List (String × EngineDef) := []
  allRules : List Rule := []
  log : List (LogLevel × String) := []

/-- Emit one log event. -/
def AnalyzerState.withLog (st : AnalyzerState) (level : LogLevel) (message : String) :
    AnalyzerState :=
  { st with log := st.log ++ [(level, message)] }

/-- `getAvailableEngineNamesFromPlugin` (index.ts): wrap a plugin throw as a
`PluginErrorFromGetAvailableEngineNames` failure. -/
def getAvailableEngineNamesFromPlugin (enginePlugin : EnginePluginDef) :
    Except String (List String) :=
  match enginePlugin.getAvailableEngineNames with
  | .ok names => .ok names
  | .error err => .error (msgPluginErrorFromGetAvailableEngineNames err)

/-- `createEngineFromPlugin` (index.ts). -/
def createEngineFromPlugin (enginePlugin : EnginePluginDef) (engineName : String)
    (config : ConfigObject) : Except String EngineDef :=
  match enginePlugin.createEngine engineName config with
  | .ok engine => .ok engine
  | .error err => .error (msgPluginErrorFromCreateEngine engineName err)

/-- The loop of `validateRuleDescriptions` (index.ts), carrying the set of
rule names seen so far. -/
def validateRuleDescriptionsAux (engineName : String) (ruleNamesSeen : List String) :
    List RuleDescription → Except String Unit
  | [] => .ok ()
  | ruleDescription :: rest =>
    if ruleNamesSeen.contains ruleDescription.name then
      .error (msgEngineReturnedMultipleRulesWithSameName engineName ruleDescription.name)
    else validateRuleDescriptionsAux engineName (ruleNamesSeen ++ [ruleDescription.name]) rest

/-- `validateRuleDescriptions` (index.ts): two rules of one engine must not
share a name. -/
def validateRuleDescriptions (ruleDescriptions : List RuleDescription)
    (engineName : String) : Except String Unit :=
  validateRuleDescriptionsAux engineName [] ruleDescriptions

/-- `CodeAnalyzer.updateRuleDescriptionWithOverrides` (index.ts): replace
severity and/or tags from the configured override, logging a `Debug` line
per overridden field. -/
def updateRuleDescriptionWithOverrides (config : CodeAnalyzerConfig) (st : AnalyzerState)
    (engineName : String) (ruleDescription : RuleDescription) :
    AnalyzerState × RuleDescription :=
  let ruleOverride := config.getRuleOverrideFor engineName ruleDescription.name
  let step1 : AnalyzerState × RuleDescription :=
    match ruleOverride.severity with
    | some severity =>
      (st.withLog .Debug (msgRulePropertyOverridden "severity" ruleDescription.name
          engineName (toString ruleDescription.severityLevel.toNat) (toString severity.toNat)),
        { ruleDescription with severityLevel := severity })
    | none => (st, ruleDescription)
  match ruleOverride.tags with
  | some tags =>
    (step1.1.withLog .Debug (msgRulePropertyOverridden "tags" step1.2.name engineName
        (jsonStringifyStringList step1.2.tags) (jsonStringifyStringList tags)),
      { step1.2 with tags := tags })
  | none => step1

/-- `CodeAnalyzer.addEngineIfValid` (index.ts): reject (one `Error` log
event, registry untouched) a duplicate name, a name contradiction, or a
failed self-validation; otherwise register the engine and log `Debug`.
(The per-engine event subscription `listenToEngineEvents` performs is not
modelled; engine-scoped event re-emission is outside every claim.) -/
def addEngineIfValid (st : AnalyzerState) (engineName : String) (engine : EngineDef) :
    AnalyzerState :=
  if (assocLookup st.engines engineName).isSome then
    st.withLog .Error (msgDuplicateEngine engineName)
  else if engineName ≠ engine.getName then
    st.withLog .Error (msgEngineNameContradiction engineName engine.getName)
  else
    match engine.validate with
    | .error err => st.withLog .Error (msgEngineValidationFailed engineName err)
    | .ok _ =>
      { st with
        engines := mapSet st.engines engineName engine,
        log := st.log ++ [(LogLevel.Debug, msgEngineAdded engineName)] }

/-- `CodeAnalyzer.addEnginePlugin` (index.ts).  Note that after
`addEngineIfValid` the loop body continues unconditionally: the engine's
rule descriptions are fetched, validated and cached even when the engine was
rejected. -/
def addEnginePlugin (config : CodeAnalyzerConfig) (st : AnalyzerState)
    (enginePlugin : EnginePluginDef) : Except String AnalyzerState := do
  let st ←
    if enginePlugin.getApiVersion > ENGINE_API_VERSION then
      match enginePlugin.getAvailableEngineNames with
      | .error e => .error e
      | .ok names =>
        .ok (st.withLog .Warn (msgEngineFromFutureApiDetected
          (toString enginePlugin.getApiVersion)
          ("\"" ++ String.intercalate "\",\"" names ++ "\"")
          (toString ENGINE_API_VERSION)))
    else .ok st
  let engineNames ← getAvailableEngineNamesFromPlugin enginePlugin
  engineNames.foldlM
    (fun st engineName => do
      let engConf : ConfigObject := ()
      let engine ← createEngineFromPlugin enginePlugin engineName engConf
      let st := addEngineIfValid st engineName engine
      let ruleDescriptions ← engine.describeRules
      validateRuleDescriptions ruleDescriptions engineName
      pure (ruleDescriptions.foldl
        (fun st ruleDescription =>
          let updated := updateRuleDescriptionWithOverrides config st engineName
            ruleDescription
          { updated.1 with
            allRules := updated.1.allRules ++ [Rule.impl engineName updated.2] })
        st))
    st

theorem rulesFold_noOverrides (config : CodeAnalyzerConfig) (engineName : String)
    (descs : List RuleDescription) (st : AnalyzerState)
    (h : ∀ d ∈ descs, config.getRuleOverrideFor engineName d.name = {}) :
    descs.foldl
        (fun st ruleDescription =>
          let updated := updateRuleDescriptionWithOverrides config st engineName
            ruleDescription
          { updated.1 with
            allRules := updated.1.allRules ++ [Rule.impl engineName updated.2] })
        st =
      { st with allRules := st.allRules ++ descs.map (Rule.impl engineName) } := by
  induction descs generalizing st with
  | nil =>
    show st = { st with allRules := st.allRules ++ [] }
    cases st
    simp
  | cons d rest ih =>
    have hd := h d (List.mem_cons_self d rest)
    simp only [List.foldl_cons]
    have hstep :
        (let updated := updateRuleDescriptionWithOverrides config st engineName d
         { updated.1 with
           allRules := updated.1.allRules ++ [Rule.impl engineName updated.2] }) =
        { st with allRules := st.allRules ++ [Rule.impl engineName d] } := by
      simp only [updateRuleDescriptionWithOverrides, hd]
    rw [hstep, ih _ (fun d2 hd2 => h d2 (List.mem_cons_of_mem d hd2))]
    simp

/-- A configuration with no rule overrides. -/
def noOverridesConfig : CodeAnalyzerConfig := ⟨fun _ _ => {}⟩

/-- The rule description of the duplicate-registration counterexample. -/
def dupRuleDesc : RuleDescription :=
  { name := "dr", severityLevel := .Info, type := .Standard, tags := [],
    description := "", resourceUrls := [] }

/-- The engine of the duplicate-registration counterexample. -/
def dupEngine : EngineDef :=
  { getName := "e", describeRules := .ok [dupRuleDesc],
    runRules := fun _ _ => .ok { violations := [] } }

/-- A plugin advertising the (already registered) engine `"e"`. -/
def dupPlugin : EnginePluginDef :=
  { getApiVersion := 1, getAvailableEngineNames := .ok ["e"],
    createEngine := fun _ _ => .ok dupEngine }

/-- A state in which engine `"e"` is already registered with its rule. -/
def dupState : AnalyzerState :=
  { engines := [("e", dupEngine)], allRules := [Rule.impl "e" dupRuleDesc], log := [] }

/-- C2 (counterexample): adding a plugin that advertises an
already-registered engine name leaves the registry unchanged and logs
exactly one `Error` event — but the rejected engine is NOT skipped entirely:
its rule description is still fetched and cached, so the catalog grows,
contradicting the claim's "without fetching or caching that engine's rule
descriptions". -/
theorem addEnginePlugin_duplicate_still_caches_rules :
    addEnginePlugin noOverridesConfig dupState dupPlugin =
        .ok
          { engines := dupState.engines,
            allRules := dupState.allRules ++ [Rule.impl "e" dupRuleDesc],
            log := [(LogLevel.Error, msgDuplicateEngine "e")] } ∧
      dupState.allRules ++ [Rule.impl "e" dupRuleDesc] ≠ dupState.allRules := by
  constructor
  · rfl
  · decide

/-- C2 (amended): each of the three rejection conditions (duplicate name,
name contradiction, failed self-validation) emits exactly one `Error` log
event for the engine and leaves the registered engine set unchanged, and
none of them makes the overall `addEnginePlugin` call fail — but the
rejected engine is NOT skipped entirely: its rule descriptions are still
fetched, validated and cached in the catalog. -/
theorem addEnginePlugin_rejects_log_and_still_caches :
    (∀ (st : AnalyzerState) (engineName : String) (engine : EngineDef),
        (assocLookup st.engines engineName).isSome = true →
        addEngineIfValid st engineName engine =
          st.withLog .Error (msgDuplicateEngine engineName)) ∧
      (∀ (st : AnalyzerState) (engineName : String) (engine : EngineDef),
        (assocLookup st.engines engineName).isSome = false →
        engineName ≠ engine.getName →
        addEngineIfValid st engineName engine =
          st.withLog .Error (msgEngineNameContradiction engineName engine.getName)) ∧
      (∀ (st : AnalyzerState) (engineName : String) (engine : EngineDef) (err : String),
        (assocLookup st.engines engineName).isSome = false →
        engineName = engine.getName →
        engine.validate = .error err →
        addEngineIfValid st engineName engine =
          st.withLog .Error (msgEngineValidationFailed engineName err)) ∧
      (∀ (config : CodeAnalyzerConfig) (st : AnalyzerState)
        (enginePlugin : EnginePluginDef) (engineName : String) (engine : EngineDef)
        (descs : List RuleDescription),
        enginePlugin.getApiVersion ≤ ENGINE_API_VERSION →
        enginePlugin.getAvailableEngineNames = .ok [engineName] →
        enginePlugin.createEngine engineName () = .ok engine →
        engine.describeRules = .ok descs →
        validateRuleDescriptions descs engineName = .ok () →
        (∀ d ∈ descs, config.getRuleOverrideFor engineName d.name = {}) →
        addEnginePlugin config st enginePlugin =
          .ok
            { addEngineIfValid st engineName engine with
              allRules := (addEngineIfValid st engineName engine).allRules ++
                descs.map (Rule.impl engineName) }) := by
  refine ⟨?_, ?_, ?_, ?_⟩
  · intro st engineName engine h
    simp [addEngineIfValid, h]
  · intro st engineName engine h1 h2
    simp [addEngineIfValid, h1, h2]
  · intro st engineName engine err h1 h2 h3
    subst h2
    simp [addEngineIfValid, h1, h3]
  · intro config st enginePlugin engineName engine descs hver hnames hcreate hdescs
      hvalid hover
    have hn : getAvailableEngineNamesFromPlugin enginePlugin = .ok [engineName] := by
      unfold getAvailableEngineNamesFromPlugin
      rw [hnames]
    have hc : createEngineFromPlugin enginePlugin engineName () = .ok engine := by
      unfold createEngineFromPlugin
      rw [hcreate]
    unfold addEnginePlugin
    rw [if_neg (not_lt.mpr hver)]
    rw [hn]
    simp only [exceptBind_ok]
    simp only [List.foldlM_cons, List.foldlM_nil]
    rw [hc]
    simp only [exceptBind_ok]
    rw [hdescs]
    simp only [exceptBind_ok]
    rw [hvalid]
    simp only [exceptBind_ok]
    rw [rulesFold_noOverrides config engineName descs _ hover]
    rfl

/-- An engine whose own name contradicts the advertised one. -/
def contraEngine : EngineDef :=
  { getName := "x", runRules := fun _ _ => .ok { violations := [] } }

/-- An engine whose self-validation throws. -/
def invalidEngine : EngineDef :=
  { getName := "z", validate := .error "bad",
    runRules := fun _ _ => .ok { violations := [] } }

/-- C2 witness: the amended theorem applied to concrete duplicate,
name-contradicting and validation-failing engines, and to a full
`addEnginePlugin` call on the duplicate plugin. -/
theorem addEnginePlugin_rejects_log_and_still_caches_witness :
    addEngineIfValid dupState "e" dupEngine =
        dupState.withLog .Error (msgDuplicateEngine "e") ∧
      addEngineIfValid {} "y" contraEngine =
        AnalyzerState.withLog {} .Error (msgEngineNameContradiction "y" "x") ∧
      addEngineIfValid {} "z" invalidEngine =
        AnalyzerState.withLog {} .Error (msgEngineValidationFailed "z" "bad") ∧
      addEnginePlugin noOverridesConfig dupState dupPlugin =
        .ok
          { addEngineIfValid dupState "e" dupEngine with
            allRules := (addEngineIfValid dupState "e" dupEngine).allRules ++
              [dupRuleDesc].map (Rule.impl "e") } :=
  ⟨addEnginePlugin_rejects_log_and_still_caches.1 dupState "e" dupEngine rfl,
    addEnginePlugin_rejects_log_and_still_caches.2.1 {} "y" contraEngine rfl (by decide),
    addEnginePlugin_rejects_log_and_still_caches.2.2.1 {} "z" invalidEngine "bad" rfl
      rfl rfl,
    addEnginePlugin_rejects_log_and_still_caches.2.2.2 noOverridesConfig dupState
      dupPlugin "e" dupEngine [dupRuleDesc] (by decide) rfl rfl rfl rfl
      (fun d _ => rfl)⟩
